import Mathlib

/-!
Verification development for the TOTALNEWS repository (TotalNews16/17/19.py).

The Python sources are shallowly embedded: each pure text transformation is
translated to an executable Lean function over `List Char` (Python `str`
operates on Unicode code points, which `List Char` models exactly), with a
`String`-level wrapper keeping the source's name.  The concrete regular
expressions of the source are hand-compiled to scanners with Python `re`
semantics (leftmost match, greedy bounded quantifiers, `re.sub` resuming
after each match).  Stateful parts (the sqlite dedup store, network sends)
are embedded as explicit state passing with oracles for network results.

Character classes (`\s`, `\w`, lowercasing) are modelled over the alphabet
actually reachable in this program: ASCII plus the Cyrillic block, which
covers every pattern literal and every configured keyword in the sources.
-/

set_option maxRecDepth 10000

namespace TotalNews

/-! ### Character classes and Python string primitives -/

/-- Python `str.isspace` / regex `\s` over this program's alphabet:
ASCII whitespace plus NBSP (U+00A0). -/
def isSpaceCh (c : Char) : Bool :=
  c = ' ' || c = '\t' || c = '\n' || c = '\r' ||
  c = Char.ofNat 11 || c = Char.ofNat 12 || c = Char.ofNat 0xA0

/-- ASCII word character `[A-Za-z0-9_]`. -/
def isAsciiWordCh (c : Char) : Bool :=
  c.isAlphanum || c = '_'

/-- Cyrillic block U+0400..U+04FF (includes ё/Ё). -/
def isCyrCh (c : Char) : Bool :=
  0x400 ≤ c.toNat && c.toNat ≤ 0x4FF

/-- Python `re` word character (`\b` boundaries) over the program's alphabet. -/
def isWordCh (c : Char) : Bool :=
  isAsciiWordCh c || isCyrCh c

/-- ASCII digit, regex `\d`. -/
def isDigitCh (c : Char) : Bool := c.isDigit

/-- Python `str.lower` on the program's alphabet (ASCII + Cyrillic). -/
def pyLowerCh (c : Char) : Char :=
  if 'A' ≤ c && c ≤ 'Z' then Char.ofNat (c.toNat + 32)
  else if 0x410 ≤ c.toNat && c.toNat ≤ 0x42F then Char.ofNat (c.toNat + 0x20)
  else if c.toNat = 0x401 then Char.ofNat 0x451
  else c

def pyLower (s : List Char) : List Char := s.map pyLowerCh

/-- Python `str.lstrip()` (whitespace). -/
def pyLStrip (s : List Char) : List Char := s.dropWhile isSpaceCh

/-- Python `str.rstrip()` (whitespace). -/
def pyRStrip (s : List Char) : List Char := (s.reverse.dropWhile isSpaceCh).reverse

/-- Python `str.strip()` (whitespace). -/
def pyStrip (s : List Char) : List Char := pyRStrip (pyLStrip s)

/-- Python `str.rstrip(chars)` for an explicit character set. -/
def pyRStripSet (bad : List Char) (s : List Char) : List Char :=
  (s.reverse.dropWhile (fun c => bad.contains c)).reverse

/-- Python substring containment (`needle in haystack`). -/
def containsSub (hay needle : List Char) : Bool :=
  (hay.tails).any (fun t => needle.isPrefixOf t)

theorem pyLStrip_head_not_space {s : List Char} (h : pyLStrip s ≠ []) :
    isSpaceCh ((pyLStrip s).headD ' ') = false := by
  unfold pyLStrip at *
  induction s with
  | nil => simp at h
  | cons c cs ih =>
    by_cases hc : isSpaceCh c
    · simpa [List.dropWhile_cons, hc] using ih (by simpa [List.dropWhile_cons, hc] using h)
    · simp [List.dropWhile_cons, hc] at *

theorem dropWhile_head_false {p : Char → Bool} {s : List Char}
    (h : s.dropWhile p ≠ []) : p ((s.dropWhile p).headD ' ') = false := by
  induction s with
  | nil => simp at h
  | cons c cs ih =>
    by_cases hc : p c
    · simpa [List.dropWhile_cons, hc] using ih (by simpa [List.dropWhile_cons, hc] using h)
    · simp [List.dropWhile_cons, hc]

/-! ### `strip_urls` — `re.sub(r"https?://\S+|t\.me/\S+", "", t).strip()`

The regex is hand-compiled: at a position, the pattern matches iff one of
the literal heads `https://`, `http://`, `t.me/` starts there followed by
at least one non-space character; the greedy `\S+` extends the match to the
next whitespace character (or end of string).  `re.sub` deletes each such
leftmost match and resumes scanning after its end. -/

def nonSpaceRun (s : List Char) : Nat :=
  (s.takeWhile (fun c => !isSpaceCh c)).length

/-- Length of the matching literal URL head at this position (0 if none). -/
def urlHeadLen (s : List Char) : Nat :=
  if "https://".data.isPrefixOf s then 8
  else if "http://".data.isPrefixOf s then 7
  else if "t.me/".data.isPrefixOf s then 5
  else 0

/-- Does `https?://\S+|t\.me/\S+` match starting at this position? -/
def urlMatchAt (s : List Char) : Bool :=
  decide (0 < urlHeadLen s) && decide (0 < nonSpaceRun (s.drop (urlHeadLen s)))

/-- Total match length of the URL pattern at this position. -/
def urlMatchLen (s : List Char) : Nat :=
  urlHeadLen s + nonSpaceRun (s.drop (urlHeadLen s))

/-- Scanner for `re.sub(r"https?://\S+|t\.me/\S+", "", t)`: the first
argument counts characters of the current match still to be skipped
(structural recursion on the text, so the kernel can evaluate it). -/
def stripUrlsGo (k : Nat) (s : List Char) : List Char :=
  match k, s with
  | _, [] => []
  | k + 1, _ :: cs => stripUrlsGo k cs
  | 0, c :: cs =>
    if urlMatchAt (c :: cs) then
      stripUrlsGo (urlMatchLen (c :: cs) - 1) cs
    else
      c :: stripUrlsGo 0 cs

/-- Core of `re.sub(r"https?://\S+|t\.me/\S+", "", t)`. -/
def stripUrlsCore (s : List Char) : List Char := stripUrlsGo 0 s

theorem urlMatchLen_pos {s : List Char} (h : urlMatchAt s = true) :
    0 < urlMatchLen s := by
  simp only [urlMatchAt, Bool.and_eq_true, decide_eq_true_eq] at h
  unfold urlMatchLen
  omega

theorem stripUrlsGo_eq_drop : ∀ (s : List Char) (k : Nat),
    stripUrlsGo k s = stripUrlsCore (s.drop k)
  | [], k => by cases k <;> simp [stripUrlsGo, stripUrlsCore]
  | _ :: cs, 0 => by simp [stripUrlsCore]
  | _ :: cs, k + 1 => by
    simp only [stripUrlsGo, List.drop_succ_cons]
    exact stripUrlsGo_eq_drop cs k

theorem stripUrlsCore_pos {c : Char} {cs : List Char}
    (h : urlMatchAt (c :: cs) = true) :
    stripUrlsCore (c :: cs) = stripUrlsCore ((c :: cs).drop (urlMatchLen (c :: cs))) := by
  have h1 : 0 < urlMatchLen (c :: cs) := urlMatchLen_pos h
  show stripUrlsGo 0 (c :: cs) = _
  rw [stripUrlsGo.eq_def]
  simp only [h, if_true]
  rw [stripUrlsGo_eq_drop cs]
  obtain ⟨m, hm⟩ : ∃ m, urlMatchLen (c :: cs) = m + 1 := ⟨_, (Nat.succ_pred_eq_of_pos h1).symm⟩
  rw [hm, List.drop_succ_cons, Nat.add_sub_cancel]

theorem stripUrlsCore_neg {c : Char} {cs : List Char}
    (h : urlMatchAt (c :: cs) = false) :
    stripUrlsCore (c :: cs) = c :: stripUrlsCore cs := by
  show stripUrlsGo 0 (c :: cs) = _
  rw [stripUrlsGo.eq_def]
  simp [h, stripUrlsCore]

/-- `strip_urls` from TotalNews17.py line 103 (identical in 16/19). -/
def strip_urls (t : String) : String :=
  ⟨pyStrip (stripUrlsCore t.data)⟩

/-- Does the text contain a URL substring (a match of the URL pattern)? -/
def hasUrl (s : List Char) : Bool :=
  match s with
  | [] => false
  | _ :: cs => urlMatchAt s || hasUrl cs

/-- A URL head literal of the pattern. -/
def IsUrlHead (p : List Char) : Prop :=
  p = "https://".data ∨ p = "http://".data ∨ p = "t.me/".data

theorem nonSpaceRun_pos_iff {t : List Char} :
    0 < nonSpaceRun t ↔ ∃ d rest, t = d :: rest ∧ isSpaceCh d = false := by
  unfold nonSpaceRun
  cases t with
  | nil => simp
  | cons d rest =>
    by_cases hd : isSpaceCh d
    · simp [List.takeWhile_cons, hd]
    · simp [List.takeWhile_cons, hd]

theorem urlHeadLen_of_head {s p : List Char} (hp : IsUrlHead p) (h : p <+: s) :
    urlHeadLen s = p.length := by
  have excl : ∀ q r : List Char, q <+: s → r <+: s → q.length ≤ r.length → q <+: r :=
    fun q r hq hr => List.prefix_of_prefix_length_le hq hr
  rcases hp with hp | hp | hp <;> subst hp <;> unfold urlHeadLen
  · rw [if_pos (by simp only [ List.isPrefixOf_iff_prefix]; exact h)]; decide
  · have h8 : ¬ ("https://".data.isPrefixOf s = true) := by
      simp only [ List.isPrefixOf_iff_prefix]
      intro hc
      have := excl "http://".data "https://".data h hc (by decide)
      revert this; decide
    rw [if_neg h8, if_pos (by simp only [ List.isPrefixOf_iff_prefix]; exact h)]; decide
  · have h8 : ¬ ("https://".data.isPrefixOf s = true) := by
      simp only [ List.isPrefixOf_iff_prefix]
      intro hc
      have := excl "t.me/".data "https://".data h hc (by decide)
      revert this; decide
    have h7 : ¬ ("http://".data.isPrefixOf s = true) := by
      simp only [ List.isPrefixOf_iff_prefix]
      intro hc
      have := excl "t.me/".data "http://".data h hc (by decide)
      revert this; decide
    rw [if_neg h8, if_neg h7, if_pos (by simp only [ List.isPrefixOf_iff_prefix]; exact h)]
    decide

theorem urlMatchAt_iff {s : List Char} :
    urlMatchAt s = true ↔
      ∃ p d, IsUrlHead p ∧ isSpaceCh d = false ∧ (p ++ [d]) <+: s := by
  constructor
  · intro h
    simp only [urlMatchAt, Bool.and_eq_true, decide_eq_true_eq] at h
    obtain ⟨hhead, hrun⟩ := h
    have hp : ∃ p, IsUrlHead p ∧ p <+: s ∧ urlHeadLen s = p.length := by
      unfold urlHeadLen at hhead ⊢
      by_cases h1 : "https://".data.isPrefixOf s
      · exact ⟨_, Or.inl rfl, by simpa [ List.isPrefixOf_iff_prefix] using h1, by simp [h1]⟩
      · by_cases h2 : "http://".data.isPrefixOf s
        · exact ⟨_, Or.inr (Or.inl rfl), by simpa [ List.isPrefixOf_iff_prefix] using h2,
            by simp [h1, h2]⟩
        · by_cases h3 : "t.me/".data.isPrefixOf s
          · exact ⟨_, Or.inr (Or.inr rfl), by simpa [ List.isPrefixOf_iff_prefix] using h3,
              by simp [h1, h2, h3]⟩
          · simp [h1, h2, h3] at hhead
    obtain ⟨p, hph, hps, hlen⟩ := hp
    rw [hlen] at hrun
    obtain ⟨t, ht⟩ := hps
    rw [← ht, List.drop_left] at hrun
    obtain ⟨d, rest, hdr, hd⟩ := nonSpaceRun_pos_iff.mp hrun
    refine ⟨p, d, hph, hd, ?_⟩
    rw [← ht, hdr]
    exact ⟨rest, by simp⟩
  · rintro ⟨p, d, hph, hd, hpre⟩
    have hps : p <+: s := List.IsPrefix.trans (List.prefix_append p [d]) hpre
    have hlen := urlHeadLen_of_head hph hps
    simp only [urlMatchAt, Bool.and_eq_true, decide_eq_true_eq, hlen]
    have hplen : 0 < p.length := by
      rcases hph with h | h | h <;> subst h <;> decide
    constructor
    · omega
    · obtain ⟨t, ht⟩ := hpre
      have : s.drop p.length = d :: t := by
        rw [← ht, List.append_assoc, List.drop_left']
        · simp
        · rfl
      rw [this]
      exact nonSpaceRun_pos_iff.mpr ⟨d, t, rfl, hd⟩

theorem urlHead_no_space {p : List Char} (hp : IsUrlHead p) :
    ∀ c ∈ p, isSpaceCh c = false := by
  rcases hp with h | h | h <;> subst h <;> decide

theorem urlMatchAt_cons_space {c : Char} {cs : List Char} (h : isSpaceCh c = true) :
    urlMatchAt (c :: cs) = false := by
  by_contra hc
  rw [Bool.not_eq_false, urlMatchAt_iff] at hc
  obtain ⟨p, d, hph, _, hpre⟩ := hc
  have hps : p <+: c :: cs := List.IsPrefix.trans (List.prefix_append p [d]) hpre
  have hplen : p ≠ [] := by rcases hph with h | h | h <;> subst h <;> decide
  obtain ⟨a, p', rfl⟩ := List.exists_cons_of_ne_nil hplen
  rw [List.cons_prefix_cons] at hps
  have ha : isSpaceCh a = false := urlHead_no_space hph a (by simp)
  rw [← hps.1] at h
  exact absurd h (by simp [ha])

/-- After a URL match, the remaining input is empty or starts with whitespace
(the greedy `\S+` runs to the next whitespace). -/
theorem drop_nonSpaceRun : ∀ t : List Char,
    t.drop (nonSpaceRun t) = t.dropWhile (fun c => !isSpaceCh c)
  | [] => rfl
  | c :: cs => by
    by_cases hc : isSpaceCh c
    · simp [nonSpaceRun, List.takeWhile_cons, List.dropWhile_cons, hc]
    · have hrec := drop_nonSpaceRun cs
      unfold nonSpaceRun at hrec
      simp [nonSpaceRun, List.takeWhile_cons, List.dropWhile_cons, hc, hrec]

theorem drop_urlMatchLen_space {s : List Char} (_h : urlMatchAt s = true) :
    s.drop (urlMatchLen s) = [] ∨
      ∃ c cs, s.drop (urlMatchLen s) = c :: cs ∧ isSpaceCh c = true := by
  unfold urlMatchLen
  rw [← List.drop_drop]
  set t := s.drop (urlHeadLen s) with ht
  rw [drop_nonSpaceRun t]
  cases hh : t.dropWhile (fun c => !isSpaceCh c) with
  | nil => exact Or.inl rfl
  | cons c cs =>
    refine Or.inr ⟨c, cs, rfl, ?_⟩
    have := dropWhile_head_false (p := fun c => !isSpaceCh c) (s := t) (by simp [hh])
    rw [hh] at this
    simpa using this

/-- Non-whitespace prefixes of the output of URL stripping already occur as
prefixes of the input: the deletions performed by `re.sub` are always
followed by whitespace, so they cannot glue non-space material together. -/
theorem prefix_stripUrlsCore_aux : ∀ (n : Nat) (s : List Char), s.length ≤ n →
    ∀ w, (∀ c ∈ w, isSpaceCh c = false) → w <+: stripUrlsCore s → w <+: s := by
  intro n
  induction n with
  | zero =>
    intro s hs w hw h
    have hnil : s = [] := List.eq_nil_of_length_eq_zero (Nat.le_zero.mp hs)
    subst hnil
    simpa [stripUrlsCore, stripUrlsGo] using h
  | succ n ih =>
    intro s hs w hw h
    match s with
    | [] => simpa [stripUrlsCore, stripUrlsGo] using h
    | c :: cs =>
      by_cases hm : urlMatchAt (c :: cs) = true
      · rw [stripUrlsCore_pos hm] at h
        rcases drop_urlMatchLen_space hm with hnil | ⟨x, xs, hxx, hx⟩
        · rw [hnil] at h
          simp only [stripUrlsCore, stripUrlsGo] at h
          have hw0 : w = [] := List.prefix_nil.mp h
          simp [hw0]
        · rw [hxx, stripUrlsCore_neg (urlMatchAt_cons_space hx)] at h
          cases w with
          | nil => simp
          | cons a w' =>
            rw [List.cons_prefix_cons] at h
            have ha : isSpaceCh a = false := hw a (by simp)
            rw [← h.1] at hx
            exact absurd hx (by simp [ha])
      · rw [stripUrlsCore_neg (Bool.eq_false_iff.mpr hm)] at h
        cases w with
        | nil => simp
        | cons a w' =>
          rw [List.cons_prefix_cons] at h ⊢
          have hcs : cs.length ≤ n := by
            simp only [List.length_cons] at hs; omega
          exact ⟨h.1, ih cs hcs w' (fun x hx => hw x (by simp [hx])) h.2⟩

theorem prefix_stripUrlsCore {s : List Char} :
    ∀ w, (∀ c ∈ w, isSpaceCh c = false) → w <+: stripUrlsCore s → w <+: s :=
  prefix_stripUrlsCore_aux s.length s le_rfl

theorem hasUrl_stripUrlsCore_aux : ∀ (n : Nat) (s : List Char), s.length ≤ n →
    hasUrl (stripUrlsCore s) = false := by
  intro n
  induction n with
  | zero =>
    intro s hs
    have hnil : s = [] := List.eq_nil_of_length_eq_zero (Nat.le_zero.mp hs)
    subst hnil
    rfl
  | succ n ih =>
    intro s hs
    match s with
    | [] => rfl
    | c :: cs =>
      by_cases hm : urlMatchAt (c :: cs) = true
      · rw [stripUrlsCore_pos hm]
        apply ih
        have hp := urlMatchLen_pos hm
        simp only [List.length_drop, List.length_cons] at *
        omega
      · rw [stripUrlsCore_neg (Bool.eq_false_iff.mpr hm)]
        have hcs : cs.length ≤ n := by
          simp only [List.length_cons] at hs; omega
        rw [hasUrl]
        simp only [Bool.or_eq_false_iff]
        refine ⟨?_, ih cs hcs⟩
        by_contra hc
        rw [Bool.not_eq_false, urlMatchAt_iff] at hc
        obtain ⟨p, d, hph, hd, hpre⟩ := hc
        have hwsp : ∀ x ∈ p ++ [d], isSpaceCh x = false := by
          intro x hx
          rcases List.mem_append.mp hx with hx | hx
          · exact urlHead_no_space hph x hx
          · simp only [List.mem_singleton] at hx; rw [hx]; exact hd
        have hcs2 : (p ++ [d]) <+: c :: cs := by
          have h2 : c :: stripUrlsCore cs = stripUrlsCore (c :: cs) :=
            (stripUrlsCore_neg (Bool.eq_false_iff.mpr hm)).symm
          rw [h2] at hpre
          exact prefix_stripUrlsCore _ hwsp hpre
        have hmm : urlMatchAt (c :: cs) = true :=
          urlMatchAt_iff.mpr ⟨p, d, hph, hd, hcs2⟩
        exact absurd hmm hm

/-- The output of the `re.sub` core of `strip_urls` contains no URL match. -/
theorem hasUrl_stripUrlsCore (s : List Char) :
    hasUrl (stripUrlsCore s) = false :=
  hasUrl_stripUrlsCore_aux s.length s le_rfl

theorem hasUrl_false_of_suffix {l t : List Char} (h : hasUrl l = false)
    (hs : t <:+ l) : hasUrl t = false := by
  induction l with
  | nil =>
    have : t = [] := List.suffix_nil.mp hs
    simp [this, hasUrl]
  | cons c cs ih =>
    rw [hasUrl, Bool.or_eq_false_iff] at h
    rcases List.suffix_cons_iff.mp hs with rfl | hs'
    · rw [hasUrl, Bool.or_eq_false_iff]
      exact ⟨h.1, h.2⟩
    · exact ih h.2 hs'

theorem hasUrl_true_of_isPre {t l : List Char} (h : hasUrl t = true)
    (hp : t <+: l) : hasUrl l = true := by
  induction t generalizing l with
  | nil => simp [hasUrl] at h
  | cons a ts ih =>
    obtain ⟨b, ls, rfl⟩ : ∃ b ls, l = b :: ls := by
      cases l with
      | nil => exact absurd (List.prefix_nil.mp hp) (by simp)
      | cons b ls => exact ⟨b, ls, rfl⟩
    rw [List.cons_prefix_cons] at hp
    rw [hasUrl, Bool.or_eq_true] at h ⊢
    rcases h with h | h
    · left
      rw [urlMatchAt_iff] at h ⊢
      obtain ⟨p, d, h1, h2, h3⟩ := h
      exact ⟨p, d, h1, h2, h3.trans (List.cons_prefix_cons.mpr ⟨hp.1, hp.2⟩)⟩
    · exact Or.inr (ih h hp.2)

theorem pyRStrip_isPre (y : List Char) : pyRStrip y <+: y := by
  refine ⟨(y.reverse.takeWhile isSpaceCh).reverse, ?_⟩
  rw [pyRStrip, ← List.reverse_append, List.takeWhile_append_dropWhile,
    List.reverse_reverse]

theorem hasUrl_pyStrip {s : List Char} (h : hasUrl s = false) :
    hasUrl (pyStrip s) = false := by
  have h1 : hasUrl (pyLStrip s) = false :=
    hasUrl_false_of_suffix h (List.dropWhile_suffix isSpaceCh)
  by_contra hc
  rw [Bool.not_eq_false] at hc
  have := hasUrl_true_of_isPre hc (pyRStrip_isPre (pyLStrip s))
  rw [h1] at this
  exact absurd this (by simp)



/-! ### `remove_mentions` — `re.sub(r"@[A-Za-z0-9_]+", "", t).strip()` -/

/-- Scanner state: pending skip count of the current match (structural
recursion, kernel-evaluable). -/
def removeMentionsGo (k : Nat) (s : List Char) : List Char :=
  match k, s with
  | _, [] => []
  | k + 1, _ :: cs => removeMentionsGo k cs
  | 0, c :: cs =>
    if c = '@' ∧ 0 < (cs.takeWhile isAsciiWordCh).length then
      removeMentionsGo (cs.takeWhile isAsciiWordCh).length cs
    else
      c :: removeMentionsGo 0 cs

def removeMentionsCore (s : List Char) : List Char := removeMentionsGo 0 s

/-- `remove_mentions` from TotalNews17.py line 106. -/
def remove_mentions (t : String) : String :=
  ⟨pyStrip (removeMentionsCore t.data)⟩

/-! ### `strip_hashtags_simple` — `re.sub(r"(?:^|\s)#[^\s#]+", "", t)`

`^` only matches at the very start of the string (no MULTILINE flag); a
matched token is `#` followed by a maximal nonempty run of `[^\s#]`; the
`\s` alternative includes the whitespace character in the match. -/

def isHashTokCh (c : Char) : Bool := !isSpaceCh c && !(c = '#')

def stripHashtagsGo (atStart : Bool) (k : Nat) (s : List Char) : List Char :=
  match k, s with
  | _, [] => []
  | k + 1, _ :: cs => stripHashtagsGo false k cs
  | 0, c :: cs =>
    if atStart ∧ c = '#' ∧ 0 < (cs.takeWhile isHashTokCh).length then
      stripHashtagsGo false (cs.takeWhile isHashTokCh).length cs
    else if isSpaceCh c ∧ cs.headD ' ' = '#' ∧
        0 < (cs.tail.takeWhile isHashTokCh).length then
      stripHashtagsGo false (1 + (cs.tail.takeWhile isHashTokCh).length) cs
    else
      c :: stripHashtagsGo false 0 cs

def stripHashtagsCore (atStart : Bool) (s : List Char) : List Char :=
  stripHashtagsGo atStart 0 s

/-- `strip_hashtags_simple` from TotalNews17.py line 109 (no strip). -/
def strip_hashtags_simple (t : String) : String :=
  ⟨stripHashtagsCore true t.data⟩

/-! ### Case-insensitive literal/word-pattern combinators

Building blocks for the hand-compiled `(?i)`-patterns of
`SENDER_PATTERNS` and `INVITE_CUT_MARKERS`.  A combinator takes the
remaining input and returns the input after the consumed part, `none` when
the pattern piece does not match here. -/

/-- Case-insensitive literal (pattern literals are lowercase). -/
def litCI (w : List Char) (s : List Char) : Option (List Char) :=
  match w, s with
  | [], s => some s
  | _ :: _, [] => none
  | a :: ws, c :: cs => if pyLowerCh c = a then litCI ws cs else none

/-- `\s+` (greedy; the following piece never matches a space character). -/
def wsPlus (s : List Char) : Option (List Char) :=
  match s with
  | [] => none
  | c :: cs => if isSpaceCh c then some (cs.dropWhile isSpaceCh) else none

/-- `\b` after a pattern piece that ends in a word character. -/
def boundaryAfterWord (s : List Char) : Option (List Char) :=
  match s with
  | [] => some []
  | c :: _ => if isWordCh c then none else some s

/-- `[oneof]?\b` after a word character (with regex backtracking: the
optional character is tried first, the zero-width option afterwards). -/
def optCharThenB (opts : List Char) (s : List Char) : Option (List Char) :=
  match s with
  | [] => some []
  | c :: cs =>
    if opts.contains (pyLowerCh c) then
      match boundaryAfterWord cs with
      | some r => some r
      | none => boundaryAfterWord (c :: cs)
    else boundaryAfterWord (c :: cs)

/-- `(lit)?\b` after a word character, with backtracking as above. -/
def optLitThenB (w : List Char) (s : List Char) : Option (List Char) :=
  match litCI w s with
  | some r =>
    match boundaryAfterWord r with
    | some r2 => some r2
    | none => boundaryAfterWord s
  | none => boundaryAfterWord s

/-- `.*` — consume the rest of the line (`.` does not match newline). -/
def dotStar (s : List Char) : List Char :=
  s.dropWhile (fun c => !(c = '\n'))

/-! ### `remove_sender_phrases` — the seven `SENDER_PATTERNS` substitutions -/

/-- `(?i)\bподписчик\s+прислал[аи]?\b.*` -/
def senderRest1 (s : List Char) : Option (List Char) :=
  (litCI "подписчик".data s).bind fun r1 =>
  (wsPlus r1).bind fun r2 =>
  (litCI "прислал".data r2).bind fun r3 =>
  (optCharThenB "аи".data r3).map dotStar

/-- `(?i)\bподписчица\s+прислал[аи]?\b.*` -/
def senderRest2 (s : List Char) : Option (List Char) :=
  (litCI "подписчица".data s).bind fun r1 =>
  (wsPlus r1).bind fun r2 =>
  (litCI "прислал".data r2).bind fun r3 =>
  (optCharThenB "аи".data r3).map dotStar

/-- `(?i)\bприслал[аи]?\b.*` -/
def senderRest3 (s : List Char) : Option (List Char) :=
  (litCI "прислал".data s).bind fun r1 =>
  (optCharThenB "аи".data r1).map dotStar

/-- `(?i)\bнам\s+пишут.*` -/
def senderRest4 (s : List Char) : Option (List Char) :=
  (litCI "нам".data s).bind fun r1 =>
  (wsPlus r1).bind fun r2 =>
  (litCI "пишут".data r2).map dotStar

/-- `(?i)\bсообщают.*` -/
def senderRest5 (s : List Char) : Option (List Char) :=
  (litCI "сообщают".data s).map dotStar

/-- `(?i)\bприслано\s+через\s+бота.*` -/
def senderRest6 (s : List Char) : Option (List Char) :=
  (litCI "прислано".data s).bind fun r1 =>
  (wsPlus r1).bind fun r2 =>
  (litCI "через".data r2).bind fun r3 =>
  (wsPlus r3).bind fun r4 =>
  (litCI "бота".data r4).map dotStar

/-- `(?i)\bв\s+бот\s+прислал[аи]?\b.*` -/
def senderRest7 (s : List Char) : Option (List Char) :=
  (litCI "в".data s).bind fun r1 =>
  (wsPlus r1).bind fun r2 =>
  (litCI "бот".data r2).bind fun r3 =>
  (wsPlus r3).bind fun r4 =>
  (litCI "прислал".data r4).bind fun r5 =>
  (optCharThenB "аи".data r5).map dotStar

/-- `re.sub` driver for one sender pattern: the pattern begins with
`\b` and a word character (the flag tracks whether the previous character
was a word character), and ends with `.*`, so it always consumes at least
one character and leaves the scan at a line end, where no pattern of the
list can start — the flag value passed after a deletion is therefore
irrelevant.  The `.max 1` is a formal guard for termination only. -/
def subSenderGo (m : List Char → Option (List Char)) (prevW : Bool)
    (k : Nat) (s : List Char) : List Char :=
  match k, s with
  | _, [] => []
  | k + 1, _ :: cs => subSenderGo m true k cs
  | 0, c :: cs =>
    match (if prevW then none else m (c :: cs)) with
    | some rest =>
      subSenderGo m true ((c :: cs).length - rest.length - 1) cs
    | none => c :: subSenderGo m (isWordCh c) 0 cs

def subSenderPat (m : List Char → Option (List Char)) (s : List Char) :
    List Char :=
  subSenderGo m false 0 s

def SENDER_MATCHERS : List (List Char → Option (List Char)) :=
  [senderRest1, senderRest2, senderRest3, senderRest4, senderRest5,
   senderRest6, senderRest7]

/-- `remove_sender_phrases` from TotalNews17.py lines 139-143: the seven
patterns are substituted away in order (no strip). -/
def remove_sender_phrases (t : String) : String :=
  ⟨SENDER_MATCHERS.foldl (fun acc m => subSenderPat m acc) t.data⟩

/-! ### `drop_after_subscribe_calls` — truncation at `INVITE_CUT_MARKERS` -/

/-- `(?i)\bподписывайтесь?\b` -/
def invRest1 (s : List Char) : Option (List Char) :=
  (litCI "подписывайтес".data s).bind (optCharThenB "ь".data)

/-- `(?i)\bподписывайся\b` -/
def invRest2 (s : List Char) : Option (List Char) :=
  (litCI "подписывайся".data s).bind boundaryAfterWord

/-- `(?i)\bподписаться\b` -/
def invRest3 (s : List Char) : Option (List Char) :=
  (litCI "подписаться".data s).bind boundaryAfterWord

/-- `(?i)\bподпишись\b` -/
def invRest4 (s : List Char) : Option (List Char) :=
  (litCI "подпишись".data s).bind boundaryAfterWord

/-- `(?i)\bвступай(те)?\b` -/
def invRest5 (s : List Char) : Option (List Char) :=
  (litCI "вступай".data s).bind (optLitThenB "те".data)

/-- `(?i)\bоформляй(те)?\b` -/
def invRest6 (s : List Char) : Option (List Char) :=
  (litCI "оформляй".data s).bind (optLitThenB "те".data)

/-- Index of the first position (0-based) where a `\b`-anchored pattern
matches, like `re.search(...).start()`. -/
def findFirstB (m : List Char → Option (List Char)) :
    Bool → Nat → List Char → Option Nat
  | _, _, [] => none
  | prevW, i, c :: cs =>
    if prevW = false ∧ (m (c :: cs)).isSome then some i
    else findFirstB m (isWordCh c) (i + 1) cs

def INVITE_MATCHERS : List (List Char → Option (List Char)) :=
  [invRest1, invRest2, invRest3, invRest4, invRest5, invRest6]

/-- `drop_after_subscribe_calls` from TotalNews17.py lines 145-153:
truncate at the minimum match start over all markers, then
`rstrip(" .,!—-")`. -/
def drop_after_subscribe_calls (t : String) : String :=
  let s := t.data
  let idx := INVITE_MATCHERS.foldl
    (fun acc m =>
      match findFirstB m false 0 s with
      | some i => min acc i
      | none => acc) s.length
  ⟨pyRStripSet " .,!—-".data (s.take idx)⟩

/-! ### `collapse_ws_keep_newlines` -/

/-- `re.sub(r"[ \t]+", " ", t)`. -/
def collapseSpTabGo (k : Nat) (s : List Char) : List Char :=
  match k, s with
  | _, [] => []
  | k + 1, _ :: cs => collapseSpTabGo k cs
  | 0, c :: cs =>
    if c = ' ' ∨ c = '\t' then
      ' ' :: collapseSpTabGo (cs.takeWhile (fun d => d = ' ' || d = '\t')).length cs
    else
      c :: collapseSpTabGo 0 cs

def collapseSpTab (s : List Char) : List Char := collapseSpTabGo 0 s

/-- `re.sub(r"\n{3,}", "\n\n", t)`. -/
def collapseNl3Go (k : Nat) (s : List Char) : List Char :=
  match k, s with
  | _, [] => []
  | k + 1, _ :: cs => collapseNl3Go k cs
  | 0, c :: cs =>
    if c = '\n' ∧ 2 ≤ (cs.takeWhile (fun d => d = '\n')).length then
      '\n' :: '\n' :: collapseNl3Go (cs.takeWhile (fun d => d = '\n')).length cs
    else
      c :: collapseNl3Go 0 cs

def collapseNl3 (s : List Char) : List Char := collapseNl3Go 0 s

/-- `collapse_ws_keep_newlines` from TotalNews17.py lines 112-115. -/
def collapse_ws_keep_newlines (t : String) : String :=
  ⟨pyStrip (collapseNl3 (collapseSpTab t.data))⟩

/-- `sanitize` from TotalNews17.py lines 155-161 (identical in 16/19). -/
def sanitize (t : String) : String :=
  collapse_ws_keep_newlines
    (drop_after_subscribe_calls
      (remove_sender_phrases
        (strip_hashtags_simple
          (remove_mentions
            (strip_urls t)))))

/-! ### Strippedness: strings with no leading/trailing whitespace -/

/-- No leading and no trailing whitespace (vacuously true for `[]`). -/
def Stripped (l : List Char) : Prop :=
  isSpaceCh (l.headD 'x') = false ∧ isSpaceCh (l.reverse.headD 'x') = false

theorem headD_append {a b : List Char} {d : Char} (h : a ≠ []) :
    (a ++ b).headD d = a.headD d := by
  cases a with
  | nil => simp at h
  | cons x xs => simp

theorem pyLStrip_eq_self {l : List Char}
    (h : isSpaceCh (l.headD 'x') = false) : pyLStrip l = l := by
  cases l with
  | nil => rfl
  | cons c cs =>
    simp only [List.headD_cons] at h
    simp [pyLStrip, List.dropWhile_cons, h]

theorem pyRStrip_eq_self {l : List Char}
    (h : isSpaceCh (l.reverse.headD 'x') = false) : pyRStrip l = l := by
  unfold pyRStrip
  cases hr : l.reverse with
  | nil =>
    have : l = [] := by simpa using congrArg List.reverse hr
    simp [this]
  | cons c cs =>
    rw [hr] at h
    simp only [List.headD_cons] at h
    rw [List.dropWhile_cons, h]
    simp only [Bool.false_eq_true, if_false]
    rw [← hr, List.reverse_reverse]

theorem pyStrip_eq_self {l : List Char} (h : Stripped l) : pyStrip l = l := by
  unfold pyStrip
  rw [pyLStrip_eq_self h.1, pyRStrip_eq_self h.2]

theorem pyStrip_stripped (l : List Char) : Stripped (pyStrip l) := by
  constructor
  · cases hc : pyStrip l with
    | nil => decide
    | cons c cs =>
      unfold pyStrip pyRStrip at hc
      have h1 : pyLStrip l ≠ [] := by
        intro hh
        rw [pyLStrip] at hh
        rw [pyLStrip, hh] at hc
        simp at hc
      have hd : isSpaceCh ((pyLStrip l).headD ' ') = false := pyLStrip_head_not_space h1
      -- pyRStrip keeps the head: it is a prefix of its argument
      have hpre : pyRStrip (pyLStrip l) <+: pyLStrip l := pyRStrip_isPre _
      rw [show pyRStrip (pyLStrip l) = c :: cs from hc] at hpre
      obtain ⟨a, as, ha⟩ : ∃ a as, pyLStrip l = a :: as := by
        cases hq : pyLStrip l with
        | nil => exact absurd hq h1
        | cons a as => exact ⟨a, as, rfl⟩
      rw [ha] at hpre hd
      rw [List.cons_prefix_cons] at hpre
      simp only [List.headD_cons] at hd ⊢
      rw [hpre.1]
      exact hd
  · cases hc : (pyStrip l).reverse with
    | nil => decide
    | cons c cs =>
      unfold pyStrip pyRStrip at hc
      rw [List.reverse_reverse] at hc
      have h2 : (pyLStrip l).reverse.dropWhile isSpaceCh ≠ [] := by simp [hc]
      have := dropWhile_head_false h2
      rw [hc] at this
      simpa using this

theorem pyRStrip_ne_nil {l : List Char} {x : Char} (hx : x ∈ l)
    (hxs : isSpaceCh x = false) : pyRStrip l ≠ [] := by
  unfold pyRStrip
  intro h
  have h2 : l.reverse.dropWhile isSpaceCh = [] := by
    have := congrArg List.reverse h
    simpa using this
  rw [List.dropWhile_eq_nil_iff] at h2
  have := h2 x (by simpa using hx)
  rw [hxs] at this
  exact absurd this (by simp)

/-! ### `sentences` — `re.split(r"(?<=[\.\!\?…])\s+|\n+", text)` plus
strip-and-filter.

The split alternation is hand-compiled into a three-state scanner: normal
scanning (tracking whether the previous character was sentence-final
punctuation for the lookbehind), skipping a greedy `\s+` run, and skipping
a greedy `\n+` run.  `re.split` returns the segments between matches. -/

def isSentPunct (c : Char) : Bool :=
  c = '.' || c = '!' || c = '?' || c = '…'

mutual

def sentSplitGo (prevPunct : Bool) (s : List Char) : List (List Char) :=
  match s with
  | [] => [[]]
  | c :: cs =>
    if prevPunct ∧ isSpaceCh c then
      [] :: sentSkipWs cs
    else if c = '\n' then
      [] :: sentSkipNl cs
    else
      match sentSplitGo (isSentPunct c) cs with
      | [] => [[c]]
      | p :: ps => (c :: p) :: ps

def sentSkipWs (s : List Char) : List (List Char) :=
  match s with
  | [] => [[]]
  | c :: cs =>
    if isSpaceCh c then sentSkipWs cs
    else
      match sentSplitGo (isSentPunct c) cs with
      | [] => [[c]]
      | p :: ps => (c :: p) :: ps

def sentSkipNl (s : List Char) : List (List Char) :=
  match s with
  | [] => [[]]
  | c :: cs =>
    if c = '\n' then sentSkipNl cs
    else
      match sentSplitGo (isSentPunct c) cs with
      | [] => [[c]]
      | p :: ps => (c :: p) :: ps

end

/-- The stripped nonempty sentence parts, as in the list comprehension of
`sentences`. -/
def sentencesCore (s : List Char) : List (List Char) :=
  ((sentSplitGo false s).map pyStrip).filter (fun p => !p.isEmpty)

/-- `sentences` from TotalNews17.py lines 163-165. -/
def sentences (text : String) : List String :=
  (sentencesCore text.data).map (fun l => String.mk l)

/-- Python `sep.join(parts)`. -/
def pyJoin (sep : List Char) : List (List Char) → List Char
  | [] => []
  | [p] => p
  | p :: q :: rest => p ++ sep ++ pyJoin sep (q :: rest)

/-- Body of `build_caption` after both arguments were sanitized. -/
def buildCaptionCore (t0 s0 : List Char) : List Char :=
  let ss := sentencesCore s0
  let t1 := if t0.isEmpty then (if ss.isEmpty then s0.take 140 else ss.headD []) else t0
  let s1 := if t0.isEmpty then (if 1 < ss.length then pyJoin [' '] ss.tail else []) else s0
  (pyStrip (t1 ++ (if s1.isEmpty then [] else " — ".data ++ s1))).take 1024

/-- `build_caption` from TotalNews17.py lines 167-175. -/
def build_caption (title summary : String) : String :=
  ⟨buildCaptionCore (sanitize title).data (sanitize summary).data⟩

/-- Modelled from the words of the specification (C6): sanitized title,
joined to a non-empty sanitized summary by the em-dash separator,
truncated to 1024 characters; with an empty sanitized title, the first
extracted sentence becomes the title and the remaining sentences (joined
by single spaces) become the summary. -/
def captionSpecCore (t0 s0 : List Char) : List Char :=
  if t0.isEmpty then
    (((sentencesCore s0).headD []) ++
      (if (pyJoin [' '] (sentencesCore s0).tail).isEmpty then []
       else " — ".data ++ pyJoin [' '] (sentencesCore s0).tail)).take 1024
  else
    (t0 ++ (if s0.isEmpty then [] else " — ".data ++ s0)).take 1024

/-- The specification-worded caption builder (see `captionSpecCore`). -/
def captionFromSpec (title summary : String) : String :=
  ⟨captionSpecCore (sanitize title).data (sanitize summary).data⟩

theorem sanitize_data (t : String) :
    (sanitize t).data =
      pyStrip (collapseNl3 (collapseSpTab
        (drop_after_subscribe_calls
          (remove_sender_phrases
            (strip_hashtags_simple
              (remove_mentions (strip_urls t))))).data)) := by
  rw [sanitize, collapse_ws_keep_newlines]

theorem sanitize_stripped (t : String) : Stripped (sanitize t).data := by
  rw [sanitize_data]
  exact pyStrip_stripped _

theorem revHeadD_append_right {a b : List Char} {d : Char} (hb : b ≠ []) :
    (a ++ b).reverse.headD d = b.reverse.headD d := by
  rw [List.reverse_append, headD_append (by simpa using hb)]

theorem stripped_append {a b : List Char} (ha : a ≠ []) (hsa : Stripped a)
    (hb : b = [] ∨ (b ≠ [] ∧ isSpaceCh (b.reverse.headD 'x') = false)) :
    Stripped (a ++ b) := by
  constructor
  · rw [headD_append ha]
    exact hsa.1
  · rcases hb with rfl | ⟨hne, hlast⟩
    · rw [List.append_nil]
      exact hsa.2
    · rw [revHeadD_append_right hne]
      exact hlast

theorem mem_sentencesCore {s p : List Char} (h : p ∈ sentencesCore s) :
    p ≠ [] ∧ Stripped p := by
  unfold sentencesCore at h
  rw [List.mem_filter] at h
  obtain ⟨hmem, hne⟩ := h
  rw [List.mem_map] at hmem
  obtain ⟨q, _, rfl⟩ := hmem
  exact ⟨by simpa using hne, pyStrip_stripped q⟩

theorem sentencesCore_ne_nil {s : List Char} (hs : Stripped s) (hne : s ≠ []) :
    sentencesCore s ≠ [] := by
  obtain ⟨c, cs, rfl⟩ := List.exists_cons_of_ne_nil hne
  have hc : isSpaceCh c = false := by simpa using hs.1
  have hcn : ¬ (c = '\n') := by
    intro hcc
    rw [hcc] at hc
    exact absurd hc (by simp [isSpaceCh])
  have hsplit : ∃ p ps, sentSplitGo false (c :: cs) = (c :: p) :: ps := by
    rw [sentSplitGo]
    simp only [false_and, if_false, hcn]
    cases hsp : sentSplitGo (isSentPunct c) cs with
    | nil => exact ⟨[], [], rfl⟩
    | cons p ps => exact ⟨p, ps, rfl⟩
  obtain ⟨p, ps, hps⟩ := hsplit
  unfold sentencesCore
  rw [hps]
  have hstr : pyStrip (c :: p) ≠ [] := by
    unfold pyStrip
    rw [pyLStrip_eq_self (by simpa using hc)]
    exact pyRStrip_ne_nil (List.mem_cons_self c p) hc
  simp only [List.map_cons, List.filter_cons]
  rw [if_pos (by simpa using hstr)]
  simp

theorem pyJoin_ne_nil {ps : List (List Char)} (h : ∀ p ∈ ps, p ≠ [])
    (hps : ps ≠ []) : pyJoin [' '] ps ≠ [] := by
  match ps with
  | [p] =>
    exact h p (by simp)
  | p :: q :: rest =>
    have hp : p ≠ [] := h p (by simp)
    simp only [pyJoin]
    intro hc
    rw [List.append_assoc] at hc
    exact hp (List.append_eq_nil.mp hc).1

theorem pyJoin_last : ∀ (ps : List (List Char)),
    (∀ p ∈ ps, p ≠ [] ∧ Stripped p) → ps ≠ [] →
    isSpaceCh ((pyJoin [' '] ps).reverse.headD 'x') = false
  | [], _, hps => absurd rfl hps
  | [p], h, _ => (h p (by simp)).2.2
  | p :: q :: rest, h, _ => by
    have hj : pyJoin [' '] (q :: rest) ≠ [] :=
      pyJoin_ne_nil (fun x hx => (h x (by simp [hx])).1) (by simp)
    have ih := pyJoin_last (q :: rest) (fun x hx => h x (by simp [hx])) (by simp)
    simp only [pyJoin]
    rw [List.append_assoc, revHeadD_append_right (by simp [hj])]
    rw [revHeadD_append_right hj]
    exact ih

theorem caption_core_eq {t0 s0 : List Char} (ht : Stripped t0)
    (hs : Stripped s0) : buildCaptionCore t0 s0 = captionSpecCore t0 s0 := by
  by_cases h0 : t0.isEmpty
  · have ht0 : t0 = [] := by simpa using h0
    subst ht0
    by_cases hss : (sentencesCore s0).isEmpty
    · have hs0 : s0 = [] := by
        by_contra hne
        exact sentencesCore_ne_nil hs hne (by simpa using hss)
      subst hs0
      rfl
    · obtain ⟨p, ps, hps⟩ : ∃ p ps, sentencesCore s0 = p :: ps := by
        cases hq : sentencesCore s0 with
        | nil => rw [hq] at hss; simp at hss
        | cons p ps => exact ⟨p, ps, rfl⟩
      have hmem : ∀ q ∈ sentencesCore s0, q ≠ [] ∧ Stripped q :=
        fun q hq => mem_sentencesCore hq
      have hp := hmem p (by rw [hps]; simp)
      have hs1eq :
          (if 1 < (p :: ps).length then pyJoin [' '] ps else [])
            = pyJoin [' '] ps := by
        cases ps with
        | nil => simp [pyJoin]
        | cons q rest => simp
      have hpsmem : ∀ q ∈ ps, q ≠ [] ∧ Stripped q :=
        fun q hq => hmem q (by rw [hps]; simp [hq])
      have hdet : Stripped (p ++
          (if (pyJoin [' '] ps).isEmpty then [] else " — ".data ++ pyJoin [' '] ps)) := by
        apply stripped_append hp.1 hp.2
        by_cases hj : (pyJoin [' '] ps).isEmpty
        · left; simp [hj]
        · right
          have hjn : pyJoin [' '] ps ≠ [] := by simpa using hj
          constructor
          · simp [hj]
          · rw [if_neg (by simpa using hj), revHeadD_append_right hjn]
            have hpsne : ps ≠ [] := by
              intro hc
              rw [hc] at hjn
              exact hjn rfl
            exact pyJoin_last ps hpsmem hpsne
      unfold buildCaptionCore captionSpecCore
      simp only [List.isEmpty_nil, if_true, hps, List.headD_cons, List.tail_cons,
        List.isEmpty_cons, Bool.false_eq_true, if_false]
      rw [hs1eq]
      rw [pyStrip_eq_self hdet]
  · have ht0 : t0 ≠ [] := by simpa using h0
    have hdet : Stripped (t0 ++ (if s0.isEmpty then [] else " — ".data ++ s0)) := by
      apply stripped_append ht0 ht
      by_cases hs0 : s0.isEmpty
      · left; simp [hs0]
      · right
        have hsn : s0 ≠ [] := by simpa using hs0
        refine ⟨by simp [hs0], ?_⟩
        rw [if_neg (by simpa using hs0), revHeadD_append_right hsn]
        exact hs.2
    unfold buildCaptionCore captionSpecCore
    simp only [h0, if_false, Bool.false_eq_true]
    rw [pyStrip_eq_self hdet]

/-- C7 (amended): for all input text containing a bare URL, the output of
the `strip_urls` stage contains no URL substring (a substring matching the
source's URL pattern `https?://\S+|t\.me/\S+`).  The full `sanitize`
pipeline does not have this property: mention removal can glue URL
components back together (see the counterexample). -/
theorem C7_strip_urls_no_url (t : String) (_h : hasUrl t.data = true) :
    hasUrl (strip_urls t).data = false := by
  have h1 := hasUrl_stripUrlsCore t.data
  show hasUrl (pyStrip (stripUrlsCore t.data)) = false
  exact hasUrl_pyStrip h1

/-- Witness for C7: a concrete text with a bare URL, whose `strip_urls`
output has none. -/
theorem C7_witness :
    hasUrl ("смотрите https://example.com сегодня" : String).data = true ∧
    hasUrl (strip_urls "смотрите https://example.com сегодня").data = false :=
  ⟨by decide, C7_strip_urls_no_url "смотрите https://example.com сегодня" (by decide)⟩

/-- C7 counterexample: the claim as stated — `sanitize` output of any text
containing a bare URL has no URL substring — is false: here the input
contains the bare URL `https://example.com`, yet the sanitized output
contains `http://bar`, reassembled when the `@foo` mention was deleted
from `http@foo://bar`. -/
theorem C7_counterexample :
    hasUrl ("see https://example.com and http@foo://bar" : String).data = true ∧
    hasUrl (sanitize "see https://example.com and http@foo://bar").data = true := by
  exact ⟨by decide, by decide⟩

/-! ### `_split_chunks` — greedy line packing for long messages -/

/-- Python `text.split("\n")` (single-character separator). -/
def splitNlAux : List Char → List Char × List (List Char)
  | [] => ([], [])
  | c :: rest =>
    let r := splitNlAux rest
    if c = '\n' then ([], r.1 :: r.2) else (c :: r.1, r.2)

def pySplitNl (s : List Char) : List (List Char) :=
  (splitNlAux s).1 :: (splitNlAux s).2

/-- The greedy packing loop of `_split_chunks`: `current` collects the
lines of the chunk under construction, `curLen` is Python's `cur_len`. -/
def splitChunksLoop (limit : Nat) (current : List (List Char)) (curLen : Nat) :
    List (List Char) → List (List Char)
  | [] => if current.isEmpty then [] else [pyJoin ['\n'] current]
  | line :: rest =>
    if limit < curLen + (line.length + 1) ∧ ¬current.isEmpty then
      pyJoin ['\n'] current ::
        splitChunksLoop limit [line] (line.length + 1) rest
    else
      splitChunksLoop limit (current ++ [line]) (curLen + (line.length + 1)) rest

/-- `_split_chunks` from TotalNews17.py lines 290-308 (identical in 19). -/
def _split_chunks (text : String) (limit : Nat) : List String :=
  if text.length ≤ limit then [text]
  else (splitChunksLoop limit [] 0 (pySplitNl text.data)).map (fun l => String.mk l)

theorem pyJoin_cons_cons (sep p : List Char) (c : Char) (ps : List (List Char)) :
    pyJoin sep ((c :: p) :: ps) = c :: pyJoin sep (p :: ps) := by
  cases ps <;> rfl

theorem pyJoin_pySplitNl : ∀ s : List Char, pyJoin ['\n'] (pySplitNl s) = s
  | [] => rfl
  | c :: rest => by
    have ih := pyJoin_pySplitNl rest
    by_cases hc : c = '\n'
    · have hsp : pySplitNl (c :: rest) =
          [] :: (splitNlAux rest).1 :: (splitNlAux rest).2 := by
        simp [pySplitNl, splitNlAux, hc]
      rw [hsp]
      have ih2 : pyJoin ['\n'] ((splitNlAux rest).1 :: (splitNlAux rest).2) = rest := ih
      show '\n' :: pyJoin ['\n'] ((splitNlAux rest).1 :: (splitNlAux rest).2) = c :: rest
      rw [ih2, hc]
    · have hsp : pySplitNl (c :: rest) =
          (c :: (splitNlAux rest).1) :: (splitNlAux rest).2 := by
        simp [pySplitNl, splitNlAux, hc]
      rw [hsp, pyJoin_cons_cons]
      exact congrArg (c :: ·) ih

theorem pyJoin_append_split (sep : List Char) :
    ∀ (A B : List (List Char)), A ≠ [] → B ≠ [] →
      pyJoin sep (A ++ B) = pyJoin sep A ++ sep ++ pyJoin sep B
  | [], _, hA, _ => absurd rfl hA
  | [a], b :: bs, _, _ => by simp [pyJoin]
  | a :: a2 :: A', B, _, hB => by
    have ih := pyJoin_append_split sep (a2 :: A') B (by simp) hB
    have hBne : ∃ b bs, (a2 :: A') ++ B = b :: bs := ⟨a2, A' ++ B, rfl⟩
    obtain ⟨b, bs, hb⟩ := hBne
    show pyJoin sep (a :: (a2 :: A') ++ B) = _
    rw [show (a :: (a2 :: A') ++ B) = a :: ((a2 :: A') ++ B) from rfl, hb]
    rw [show pyJoin sep (a :: b :: bs) = a ++ sep ++ pyJoin sep (b :: bs) from rfl]
    rw [← hb, ih]
    rw [show pyJoin sep (a :: a2 :: A') = a ++ sep ++ pyJoin sep (a2 :: A') from rfl]
    simp [List.append_assoc]

theorem splitChunksLoop_ne_nil (limit : Nat) :
    ∀ (lines current : List (List Char)) (curLen : Nat), current ≠ [] →
      splitChunksLoop limit current curLen lines ≠ []
  | [], current, curLen, hc => by
    rw [splitChunksLoop]
    rw [if_neg (by simpa using hc)]
    simp
  | line :: rest, current, curLen, hc => by
    rw [splitChunksLoop]
    by_cases hcond : limit < curLen + (line.length + 1) ∧ ¬current.isEmpty
    · rw [if_pos hcond]; simp
    · rw [if_neg hcond]
      exact splitChunksLoop_ne_nil limit rest (current ++ [line]) _ (by simp)

theorem splitChunksLoop_join (limit : Nat) :
    ∀ (lines current : List (List Char)) (curLen : Nat), current ≠ [] →
      pyJoin ['\n'] (splitChunksLoop limit current curLen lines) =
        pyJoin ['\n'] (current ++ lines)
  | [], current, curLen, hc => by
    rw [splitChunksLoop, if_neg (by simpa using hc), List.append_nil]
    rfl
  | line :: rest, current, curLen, hc => by
    rw [splitChunksLoop]
    by_cases hcond : limit < curLen + (line.length + 1) ∧ ¬current.isEmpty
    · rw [if_pos hcond]
      have hne := splitChunksLoop_ne_nil limit rest [line] (line.length + 1) (by simp)
      obtain ⟨y, ys, hy⟩ := List.exists_cons_of_ne_nil hne
      rw [hy]
      rw [show ∀ x q qs, pyJoin ['\n'] (x :: q :: qs) = x ++ ['\n'] ++ pyJoin ['\n'] (q :: qs)
        from fun x q qs => rfl]
      rw [← hy, splitChunksLoop_join limit rest [line] (line.length + 1) (by simp)]
      rw [pyJoin_append_split ['\n'] current (line :: rest) hc (by simp)]
      rfl
    · rw [if_neg hcond]
      rw [splitChunksLoop_join limit rest (current ++ [line]) _ (by simp)]
      rw [List.append_assoc]
      rfl

/-- Sum of `len(line) + 1` over the collected lines (Python's `cur_len`). -/
def sumLen1 (ps : List (List Char)) : Nat :=
  (ps.map (fun l => l.length + 1)).sum

theorem pyJoin_nl_length : ∀ ps : List (List Char), ps ≠ [] →
    (pyJoin ['\n'] ps).length + 1 = sumLen1 ps
  | [], h => absurd rfl h
  | [p], _ => by simp [pyJoin, sumLen1]
  | p :: q :: rest, _ => by
    have ih := pyJoin_nl_length (q :: rest) (by simp)
    show (p ++ ['\n'] ++ pyJoin ['\n'] (q :: rest)).length + 1 = _
    simp only [sumLen1, List.map_cons, List.sum_cons, List.length_append,
      List.length_cons, List.length_nil] at ih ⊢
    omega

theorem splitChunksLoop_bound (limit : Nat) :
    ∀ (lines current : List (List Char)) (curLen : Nat),
      (∀ l ∈ lines, l.length ≤ limit) →
      curLen = sumLen1 current →
      (current ≠ [] → curLen ≤ limit + 1) →
      ∀ c ∈ splitChunksLoop limit current curLen lines, c.length ≤ limit
  | [], current, curLen, _, h2, h3 => by
    intro c hc
    rw [splitChunksLoop] at hc
    by_cases hcur : current.isEmpty
    · rw [if_pos hcur] at hc
      simp at hc
    · rw [if_neg hcur] at hc
      simp only [List.mem_singleton] at hc
      subst hc
      have hcur' : current ≠ [] := by simpa using hcur
      have := pyJoin_nl_length current hcur'
      have := h3 hcur'
      omega
  | line :: rest, current, curLen, h1, h2, h3 => by
    intro c hc
    rw [splitChunksLoop] at hc
    by_cases hcond : limit < curLen + (line.length + 1) ∧ ¬current.isEmpty
    · rw [if_pos hcond] at hc
      rcases List.mem_cons.mp hc with rfl | hc'
      · have hcur' : current ≠ [] := by simpa using hcond.2
        have := pyJoin_nl_length current hcur'
        have := h3 hcur'
        omega
      · refine splitChunksLoop_bound limit rest [line] (line.length + 1)
          (fun l hl => h1 l (by simp [hl])) (by simp [sumLen1]) ?_ c hc'
        intro _
        have := h1 line (by simp)
        omega
    · rw [if_neg hcond] at hc
      refine splitChunksLoop_bound limit rest (current ++ [line]) _
        (fun l hl => h1 l (by simp [hl])) ?_ ?_ c hc
      · rw [h2]
        simp [sumLen1]
      · intro _
        by_cases hcur : current.isEmpty
        · have : current = [] := by simpa using hcur
          subst this
          have := h1 line (by simp)
          simp only [sumLen1, List.map_nil, List.sum_nil] at h2
          omega
        · have hle : ¬ (limit < curLen + (line.length + 1)) := fun hlt =>
            hcond ⟨hlt, by simpa using hcur⟩
          omega

theorem intercalate_go_data (sep : String) :
    ∀ (as : List String) (acc : String),
      (String.intercalate.go acc sep as).data =
        acc.data ++ (as.map (fun a => sep.data ++ a.data)).flatten
  | [], acc => by
    rw [String.intercalate.go]
    simp
  | a :: as, acc => by
    rw [String.intercalate.go]
    rw [intercalate_go_data sep as]
    simp [List.append_assoc]

theorem pyJoin_eq_flatten (sep : List Char) :
    ∀ (x : List Char) (xs : List (List Char)),
      pyJoin sep (x :: xs) = x ++ (xs.map (fun a => sep ++ a)).flatten
  | x, [] => by simp [pyJoin]
  | x, y :: ys => by
    have ih := pyJoin_eq_flatten sep y ys
    show x ++ sep ++ pyJoin sep (y :: ys) = _
    rw [ih]
    simp [List.append_assoc]

theorem intercalate_data (sep : String) (l : List String) :
    (String.intercalate sep l).data = pyJoin sep.data (l.map String.data) := by
  cases l with
  | nil => rfl
  | cons a as =>
    rw [String.intercalate]
    rw [intercalate_go_data sep as a]
    rw [List.map_cons, pyJoin_eq_flatten]
    rw [List.map_map]
    rfl

theorem splitChunksLoop_entry (limit : Nat) (p : List Char)
    (ps : List (List Char)) :
    splitChunksLoop limit [] 0 (p :: ps) =
      splitChunksLoop limit [p] (p.length + 1) ps := by
  rw [splitChunksLoop]
  rw [if_neg (by simp)]
  simp

theorem splitNlAux_no_nl : ∀ s : List Char, (∀ c ∈ s, ¬ c = '\n') →
    splitNlAux s = (s, [])
  | [], _ => rfl
  | c :: rest, h => by
    have ih := splitNlAux_no_nl rest (fun x hx => h x (by simp [hx]))
    simp [splitNlAux, ih, h c (by simp)]


/-- C4 (amended): for every text, concatenating the chunks produced by
`_split_chunks` with the newline join character reconstructs the text
exactly; and provided every individual line of the text is at most 4096
characters long, no produced chunk exceeds the 4096-character limit.  (A
single line longer than the limit becomes a chunk exceeding it, because
the greedy packer never splits within a line — see the counterexample.) -/
theorem C4_split_chunks_round_trip (text : String) :
    String.intercalate "\n" (_split_chunks text 4096) = text ∧
    ((∀ l ∈ pySplitNl text.data, l.length ≤ 4096) →
      ∀ c ∈ _split_chunks text 4096, c.length ≤ 4096) := by
  constructor
  · by_cases h : text.length ≤ 4096
    · rw [_split_chunks, if_pos h]
      rfl
    · rw [_split_chunks, if_neg h]
      apply String.ext
      rw [intercalate_data, List.map_map]
      rw [show (String.data ∘ fun l => String.mk l) = id from rfl, List.map_id]
      rw [show ("\n" : String).data = ['\n'] from rfl]
      rw [show pySplitNl text.data =
        (splitNlAux text.data).1 :: (splitNlAux text.data).2 from rfl]
      rw [splitChunksLoop_entry]
      rw [splitChunksLoop_join 4096 _ [(splitNlAux text.data).1] _ (by simp)]
      exact pyJoin_pySplitNl text.data
  · intro hlines c hc
    rw [_split_chunks] at hc
    by_cases h : text.length ≤ 4096
    · rw [if_pos h] at hc
      simp only [List.mem_singleton] at hc
      subst hc
      exact h
    · rw [if_neg h] at hc
      simp only [List.mem_map] at hc
      obtain ⟨l, hl, rfl⟩ := hc
      show l.length ≤ 4096
      rw [show pySplitNl text.data =
        (splitNlAux text.data).1 :: (splitNlAux text.data).2 from rfl,
        splitChunksLoop_entry] at hl
      refine splitChunksLoop_bound 4096 _ _ _ ?_ ?_ ?_ l hl
      · intro q hq
        exact hlines q (by
          rw [show pySplitNl text.data =
            (splitNlAux text.data).1 :: (splitNlAux text.data).2 from rfl]
          simp [hq])
      · simp [sumLen1]
      · intro _
        have := hlines (splitNlAux text.data).1 (by
          rw [show pySplitNl text.data =
            (splitNlAux text.data).1 :: (splitNlAux text.data).2 from rfl]
          simp)
        omega

/-- Witness for C4: a small concrete text whose lines fit the limit. -/
theorem C4_witness :
    (∀ l ∈ pySplitNl ("ab\ncd" : String).data, l.length ≤ 4096) ∧
    (∀ c ∈ _split_chunks "ab\ncd" 4096, c.length ≤ 4096) :=
  ⟨by decide, (C4_split_chunks_round_trip "ab\ncd").2 (by decide)⟩

/-- C4 counterexample: the claim's unconditional size bound is false — a
text of 4097 characters with no newline produces the single chunk equal
to the whole text, which exceeds the 4096-character limit. -/
theorem C4_counterexample :
    ∃ c ∈ _split_chunks (String.mk (List.replicate 4097 'a')) 4096,
      4096 < c.length := by
  have hnn : ∀ c ∈ List.replicate 4097 'a', ¬ c = '\n' := by
    intro c hc
    rw [List.eq_of_mem_replicate hc]
    decide
  have haux := splitNlAux_no_nl (List.replicate 4097 'a') hnn
  have hlen : (String.mk (List.replicate 4097 'a')).length = 4097 := by
    show (List.replicate 4097 'a').length = 4097
    rw [List.length_replicate]
  refine ⟨String.mk (List.replicate 4097 'a'), ?_, by rw [hlen]; omega⟩
  rw [_split_chunks, if_neg (by rw [hlen]; omega)]
  rw [show (String.mk (List.replicate 4097 'a')).data =
    List.replicate 4097 'a' from rfl]
  rw [show pySplitNl (List.replicate 4097 'a') =
      (splitNlAux (List.replicate 4097 'a')).1 ::
        (splitNlAux (List.replicate 4097 'a')).2 from rfl]
  rw [haux]
  rw [splitChunksLoop_entry]
  rw [splitChunksLoop]
  rw [if_neg (show ¬(([List.replicate 4097 'a'] : List (List Char)).isEmpty = true) by decide)]
  rw [show pyJoin ['\n'] [List.replicate 4097 'a'] = List.replicate 4097 'a' from rfl]
  exact List.mem_singleton_self _

/-- C6: for all title and summary inputs, `build_caption` returns the
sanitized title joined (when a non-empty sanitized summary is present) by
the em-dash separator to the summary, hard-truncated to 1024 characters;
when the sanitized title is empty, the first extracted sentence of the
summary becomes the title and the remaining sentences become the summary —
i.e. `build_caption` coincides with the specification-worded builder. -/
theorem C6_build_caption_spec (title summary : String) :
    build_caption title summary = captionFromSpec title summary :=
  congrArg String.mk
    (caption_core_eq (sanitize_stripped title) (sanitize_stripped summary))

/-! ### The ad classifier `looks_like_ad` (TotalNews19.py lines 182-213)

Five boolean detectors over the lowercased text, hand-compiled from the
source regexes `AD_KEYWORDS`, `CTA_RE`, `PHONE_RE`, `PRICE_RE`,
`WORKTIME_RE` of TotalNews19.py.  Character classes like `акци[яи]` are
expanded to their literal alternatives. -/

/-- Literal word followed by `\b` at this position (case-insensitive;
every alternative of the source patterns ends in a word character). -/
def wordHit (w : List Char) (s : List Char) : Bool :=
  match litCI w s with
  | some r => (boundaryAfterWord r).isSome
  | none => false

/-- Search for a `\b`-anchored match: `m` is tried at every position whose
preceding character is not a word character. -/
def searchAtB (m : List Char → Bool) : Bool → List Char → Bool
  | _, [] => false
  | prevW, c :: cs => (!prevW && m (c :: cs)) || searchAtB m (isWordCh c) cs

/-- Search for a `(?<!\d)`-anchored match. -/
def searchNoDigit (m : List Char → Bool) : Bool → List Char → Bool
  | _, [] => false
  | prevD, c :: cs => (!prevD && m (c :: cs)) || searchNoDigit m (isDigitCh c) cs

/-- Alternatives of `AD_KEYWORDS` from TotalNews19.py lines 182-194
(`акци[яи]` and `объявлени[ея]` expanded). -/
def AD_KEYWORDS_WORDS : List (List Char) :=
  ["реклам".data, "промо".data, "партнерск".data, "партнёрск".data,
   "спонсор".data, "скидк".data, "акция".data, "акции".data,
   "распродаж".data, "заказ".data, "заказывай".data, "оформить".data,
   "ждем вас".data, "ждём вас".data, "доставк".data, "самовывоз".data,
   "меню".data, "ассортимент".data, "каталог".data, "кафе".data,
   "пекарн".data, "кофейн".data, "салон".data, "барбершоп".data,
   "парикмахер".data, "студия".data, "маникюр".data, "ногтев".data,
   "массаж".data, "курсы".data, "тренинг".data, "школа".data,
   "секции".data, "магазин".data, "бутик".data, "showroom".data,
   "аренда".data, "сдам".data, "сдается".data, "сдаётся".data,
   "продам".data, "куплю".data, "купить".data, "барахолка".data,
   "объявление".data, "объявления".data, "объявы".data, "закажите".data,
   "цена".data, "прайс".data, "сколько стоит".data, "приглашаем".data,
   "приглашаю".data, "приходите".data, "пишите".data, "запись".data,
   "записывайтесь".data, "звоните".data, "ведет набор".data,
   "веду набор".data, "мы открылись".data, "процедура".data,
   "скидка".data, "стоимость".data, "акция".data]

/-- Detector 1: `AD_KEYWORDS.search`. -/
def adKeywordsSearch (s : List Char) : Bool :=
  AD_KEYWORDS_WORDS.any (fun w => searchAtB (wordHit w) false s)

/-- Alternatives of `CTA_RE` from TotalNews19.py line 200
(`приглаша(ю|ем)` expanded). -/
def CTA_WORDS : List (List Char) :=
  ["приглашаю".data, "приглашаем".data, "приходите".data, "пишите".data,
   "запись".data, "записывайтесь".data, "ведет набор".data,
   "веду набор".data, "звоните".data, "в личку".data, "в лс".data,
   "в директ".data, "мы открылись".data, "акция".data, "скидка".data,
   "стоимость".data, "цена".data]

/-- Detector 2: `CTA_RE.search`. -/
def ctaSearch (s : List Char) : Bool :=
  CTA_WORDS.any (fun w => searchAtB (wordHit w) false s)

/-- Optionally consume one character of the class (the following pattern
pieces never match the optional classes, so greedy consumption is exact). -/
def optSkip (p : Char → Bool) (s : List Char) : List Char :=
  match s with
  | [] => []
  | c :: cs => if p c then cs else c :: cs

/-- Exactly `n` digits. -/
def digitsN : Nat → List Char → Option (List Char)
  | 0, s => some s
  | _ + 1, [] => none
  | n + 1, c :: cs => if isDigitCh c then digitsN n cs else none

/-- `PHONE_RE` body at this position:
`(?:\+7|8)\s?\(?\d{3}\)?[\s\-]?\d{3}[\s\-]?\d{2}[\s\-]?\d{2}`. -/
def phoneAt (s : List Char) : Bool :=
  let afterHead : Option (List Char) :=
    match s with
    | '+' :: '7' :: rest => some rest
    | '8' :: rest => some rest
    | _ => none
  match afterHead with
  | none => false
  | some r =>
    let r := optSkip isSpaceCh r
    let r := optSkip (fun c => c = '(') r
    match digitsN 3 r with
    | none => false
    | some r =>
      let r := optSkip (fun c => c = ')') r
      let r := optSkip (fun c => isSpaceCh c || c = '-') r
      match digitsN 3 r with
      | none => false
      | some r =>
        let r := optSkip (fun c => isSpaceCh c || c = '-') r
        match digitsN 2 r with
        | none => false
        | some r =>
          let r := optSkip (fun c => isSpaceCh c || c = '-') r
          (digitsN 2 r).isSome

/-- Detector 3: `PHONE_RE.search`. -/
def phoneSearch (s : List Char) : Bool :=
  searchNoDigit phoneAt false s

/-- Currency suffix `(?:₽|руб\.?|рублей)\b` of `PRICE_RE`, with the
backtracking of the optional dot and of the alternation. -/
def currencyB (s : List Char) : Bool :=
  match s with
  | '₽' :: rest =>
    match rest with
    | c :: _ => isWordCh c
    | [] => false
  | _ =>
    match litCI "руб".data s with
    | some r =>
      match r with
      | [] => true
      | c :: cs =>
        if isWordCh c then
          match litCI "лей".data (c :: cs) with
          | some r2 => (boundaryAfterWord r2).isSome
          | none => false
        else true
    | none => false

/-- `PRICE_RE` body at this position: `\d{2,}[ \u00A0]?(?:₽|руб\.?|рублей)\b`
(the greedy digit run is forced: a shorter run leaves a digit where the
currency must start). -/
def priceAt (s : List Char) : Bool :=
  let run := (s.takeWhile isDigitCh).length
  decide (2 ≤ run) &&
    currencyB (optSkip (fun c => c = ' ' || c = Char.ofNat 0xA0) (s.drop run))

/-- Detector 4: `PRICE_RE.search` (the `\b` before the digits needs a
non-word predecessor). -/
def priceSearch (s : List Char) : Bool :=
  searchAtB priceAt false s

/-- `\d{1,2}[:\.]*\d{2}` with the greedy two-digit choice tried first
(if both digit choices succeed, the shorter one leaves a digit where the
following piece — `\s*до` or `\b` — must fail, so local backtracking is
exact). -/
def timePart (s : List Char) : Option (List Char) :=
  let colonRun := fun (r : List Char) => r.dropWhile (fun c => c = ':' || c = '.')
  match (digitsN 2 s).bind (fun r => digitsN 2 (colonRun r)) with
  | some r => some r
  | none => (digitsN 1 s).bind (fun r => digitsN 2 (colonRun r))

/-- Second alternative of `WORKTIME_RE` (TotalNews19 version with `[:\.]*`):
`с\s*\d{1,2}[:\.]*\d{2}\s*до\s*\d{1,2}[:\.]*\d{2}` followed by `\b`. -/
def workTimeAt (s : List Char) : Bool :=
  match litCI "с".data s with
  | none => false
  | some r =>
    let r := r.dropWhile isSpaceCh
    match timePart r with
    | none => false
    | some r =>
      let r := r.dropWhile isSpaceCh
      match litCI "до".data r with
      | none => false
      | some r =>
        let r := r.dropWhile isSpaceCh
        match timePart r with
        | none => false
        | some r =>
          match r with
          | [] => true
          | c :: _ => !isWordCh c

/-- Detector 5: `WORKTIME_RE.search`. -/
def worktimeSearch (s : List Char) : Bool :=
  searchAtB (wordHit "ежедневно".data) false s || searchAtB workTimeAt false s

/-- The signal sum of `looks_like_ad` (TotalNews19.py lines 206-211). -/
def signalCount (low : List Char) : Nat :=
  (if adKeywordsSearch low then 1 else 0) +
  (if ctaSearch low then 1 else 0) +
  (if phoneSearch low then 1 else 0) +
  (if priceSearch low then 1 else 0) +
  (if worktimeSearch low then 1 else 0)

/-- `looks_like_ad` from TotalNews19.py lines 202-213. -/
def looks_like_ad (t : String) : Bool :=
  if t.data.isEmpty then false
  else decide (2 ≤ signalCount (pyLower t.data))

/-- C1: `looks_like_ad` returns true iff at least 2 of the 5 detectors
(commercial keyword set, call-to-action set, phone pattern, price pattern,
business-hours pattern) fire on the lowercased text (TotalNews19.py). -/
theorem C1_looks_like_ad_iff (t : String) :
    looks_like_ad t = true ↔
      2 ≤ [adKeywordsSearch (pyLower t.data), ctaSearch (pyLower t.data),
           phoneSearch (pyLower t.data), priceSearch (pyLower t.data),
           worktimeSearch (pyLower t.data)].count true := by
  have hcount : ∀ a b c d e : Bool,
      ((if a then 1 else 0) + (if b then 1 else 0) + (if c then 1 else 0) +
        (if d then 1 else 0) + (if e then 1 else 0)) =
        List.count true [a, b, c, d, e] := by decide
  unfold looks_like_ad
  by_cases h : t.data.isEmpty
  · rw [if_pos h]
    have ht : t.data = [] := by simpa using h
    rw [ht]
    decide
  · rw [if_neg h]
    rw [decide_eq_true_eq]
    unfold signalCount
    rw [hcount]

/-! ### `_make_dedup_key` — `hashlib.sha256(raw.encode("utf-8")).hexdigest()`
over `raw = title[:1024] + "||" + summary[:1024] + "||" + source`
(TotalNews17.py lines 658-660).

SHA-256 is implemented over `Nat` with explicit reduction modulo `2^32`.
The claims about the key need only congruence and the injectivity of the
pre-hash input construction, never an evaluation of the compression
function. -/

/-- UTF-8 encoding of one code point. -/
def utf8Bytes (c : Char) : List Nat :=
  let n := c.toNat
  if n < 0x80 then [n]
  else if n < 0x800 then [0xC0 + n / 64, 0x80 + n % 64]
  else if n < 0x10000 then
    [0xE0 + n / 4096, 0x80 + (n / 64) % 64, 0x80 + n % 64]
  else
    [0xF0 + n / 262144, 0x80 + (n / 4096) % 64, 0x80 + (n / 64) % 64,
     0x80 + n % 64]

def utf8Encode (s : List Char) : List Nat := (s.map utf8Bytes).flatten

def w32 (n : Nat) : Nat := n % 4294967296

def rotr32 (k n : Nat) : Nat := w32 (n / 2 ^ k + n % 2 ^ k * 2 ^ (32 - k))

def not32 (n : Nat) : Nat := 4294967295 - w32 n

def bigSig0 (x : Nat) : Nat :=
  Nat.xor (rotr32 2 x) (Nat.xor (rotr32 13 x) (rotr32 22 x))

def bigSig1 (x : Nat) : Nat :=
  Nat.xor (rotr32 6 x) (Nat.xor (rotr32 11 x) (rotr32 25 x))

def smallSig0 (x : Nat) : Nat :=
  Nat.xor (rotr32 7 x) (Nat.xor (rotr32 18 x) (x / 2 ^ 3))

def smallSig1 (x : Nat) : Nat :=
  Nat.xor (rotr32 17 x) (Nat.xor (rotr32 19 x) (x / 2 ^ 10))

def chF (x y z : Nat) : Nat := Nat.xor (Nat.land x y) (Nat.land (not32 x) z)

def majF (x y z : Nat) : Nat :=
  Nat.xor (Nat.land x y) (Nat.xor (Nat.land x z) (Nat.land y z))

def SHA_K : List Nat :=
  [1116352408, 1899447441, 3049323471, 3921009573, 961987163, 1508970993,
   2453635748, 2870763221, 3624381080, 310598401, 607225278, 1426881987,
   1925078388, 2162078206, 2614888103, 3248222580, 3835390401, 4022224774,
   264347078, 604807628, 770255983, 1249150122, 1555081692, 1996064986,
   2554220882, 2821834349, 2952996808, 3210313671, 3336571891, 3584528711,
   113926993, 338241895, 666307205, 773529912, 1294757372, 1396182291,
   1695183700, 1986661051, 2177026350, 2456956037, 2730485921, 2820302411,
   3259730800, 3345764771, 3516065817, 3600352804, 4094571909, 275423344,
   430227734, 506948616, 659060556, 883997877, 958139571, 1322822218,
   1537002063, 1747873779, 1955562222, 2024104815, 2227730452, 2361852424,
   2428436474, 2756734187, 3204031479, 3329325298]

def SHA_H0 : List Nat :=
  [1779033703, 3144134277, 1013904242, 2773480762, 1359893119, 2600822924,
   528734635, 1541459225]

/-- Big-endian 8-byte encoding of the bit length. -/
def be8 (n : Nat) : List Nat :=
  [n / 2 ^ 56 % 256, n / 2 ^ 48 % 256, n / 2 ^ 40 % 256, n / 2 ^ 32 % 256,
   n / 2 ^ 24 % 256, n / 2 ^ 16 % 256, n / 2 ^ 8 % 256, n % 256]

/-- SHA-256 padding: `0x80`, zeros to 56 mod 64, 8-byte bit length. -/
def padMsg (m : List Nat) : List Nat :=
  m ++ [0x80] ++ List.replicate ((64 - (m.length + 9) % 64) % 64) 0 ++
    be8 (m.length * 8)

/-- Split into 64-byte blocks (fuel-indexed for structural recursion). -/
def toBlocks : Nat → List Nat → List (List Nat)
  | 0, _ => []
  | _ + 1, [] => []
  | fuel + 1, m => m.take 64 :: toBlocks fuel (m.drop 64)

/-- Group bytes into big-endian 32-bit words. -/
def toWords : Nat → List Nat → List Nat
  | 0, _ => []
  | _ + 1, [] => []
  | fuel + 1, bs =>
    (bs.take 4).foldl (fun acc b => acc * 256 + b) 0 :: toWords fuel (bs.drop 4)

/-- Extend the 16 block words to the 64-entry message schedule. -/
def schedule (w16 : List Nat) : List Nat :=
  (List.range 48).foldl
    (fun ws _ =>
      ws ++ [w32 (smallSig1 (ws.getD (ws.length - 2) 0) +
        ws.getD (ws.length - 7) 0 + smallSig0 (ws.getD (ws.length - 15) 0) +
        ws.getD (ws.length - 16) 0)])
    w16

/-- One compression round: the state is `[a, b, c, d, e, f, g, h]`. -/
def shaRound (st : List Nat) (kw : Nat × Nat) : List Nat :=
  let a := st.getD 0 0
  let b := st.getD 1 0
  let c := st.getD 2 0
  let d := st.getD 3 0
  let e := st.getD 4 0
  let f := st.getD 5 0
  let g := st.getD 6 0
  let h := st.getD 7 0
  let t1 := w32 (h + bigSig1 e + chF e f g + kw.1 + kw.2)
  let t2 := w32 (bigSig0 a + majF a b c)
  [w32 (t1 + t2), a, b, c, w32 (d + t1), e, f, g]

/-- Compress one block into the running hash state. -/
def shaCompress (h : List Nat) (block : List Nat) : List Nat :=
  let ws := schedule (toWords block.length block)
  let st := (SHA_K.zip ws).foldl shaRound h
  (h.zip st).map (fun p => w32 (p.1 + p.2))

def sha256Words (msg : List Nat) : List Nat :=
  (toBlocks (padMsg msg).length (padMsg msg)).foldl shaCompress SHA_H0

def hexDigit (d : Nat) : Char :=
  if d < 10 then Char.ofNat (48 + d) else Char.ofNat (87 + d)

def toHex8 (n : Nat) : List Char :=
  (List.range 8).map (fun i => hexDigit (n / 16 ^ (7 - i) % 16))

/-- `hashlib.sha256(bytes).hexdigest()` over the UTF-8 bytes. -/
def sha256hex (s : List Char) : String :=
  ⟨((sha256Words (utf8Encode s)).map toHex8).flatten⟩

/-- The pre-hash string `title[:1024] + "||" + summary[:1024] + "||" + source`. -/
def dedupRaw (title summary source : List Char) : List Char :=
  title.take 1024 ++ "||".data ++ summary.take 1024 ++ "||".data ++ source

/-- `_make_dedup_key` from TotalNews17.py lines 658-660. -/
def _make_dedup_key (title summary source : String) : String :=
  sha256hex (dedupRaw title.data summary.data source.data)

/-- C3 (amended): the dedup key is a pure function of the three fields —
equal truncated titles/summaries and equal sources yield the identical
key — and changing the source, or changing the title or summary within
their first 1024 characters, changes the SHA-256 input string (and hence
the key, barring hash collisions).  Changes beyond the first 1024
characters of title or summary do not change the key (counterexample). -/
theorem C3_make_dedup_key (t1 t2 s1 s2 c1 c2 : String) :
    (t1.data.take 1024 = t2.data.take 1024 →
      s1.data.take 1024 = s2.data.take 1024 → c1 = c2 →
      _make_dedup_key t1 s1 c1 = _make_dedup_key t2 s2 c2) ∧
    (t1.data.take 1024 ≠ t2.data.take 1024 →
      dedupRaw t1.data s1.data c1.data ≠ dedupRaw t2.data s1.data c1.data) ∧
    (s1.data.take 1024 ≠ s2.data.take 1024 →
      dedupRaw t1.data s1.data c1.data ≠ dedupRaw t1.data s2.data c1.data) ∧
    (c1 ≠ c2 →
      dedupRaw t1.data s1.data c1.data ≠ dedupRaw t1.data s1.data c2.data) := by
  refine ⟨?_, ?_, ?_, ?_⟩
  · intro ht hs hc
    subst hc
    unfold _make_dedup_key dedupRaw
    rw [ht, hs]
  · intro ht hne
    unfold dedupRaw at hne
    exact ht (List.append_cancel_right (List.append_cancel_right
      (List.append_cancel_right (List.append_cancel_right hne))))
  · intro hs hne
    unfold dedupRaw at hne
    have h1 := List.append_cancel_right (List.append_cancel_right hne)
    exact hs (List.append_cancel_left h1)
  · intro hc hne
    unfold dedupRaw at hne
    exact hc (String.ext (List.append_cancel_left hne))

/-- Witness for C3: concrete instances of all four parts. -/
theorem C3_witness :
    (_make_dedup_key "t" "s" "@c" = _make_dedup_key "t" "s" "@c") ∧
    (dedupRaw "ta".data "s".data "@c".data ≠ dedupRaw "tb".data "s".data "@c".data) ∧
    (dedupRaw "t".data "sa".data "@c".data ≠ dedupRaw "t".data "sb".data "@c".data) ∧
    (dedupRaw "t".data "s".data "@c".data ≠ dedupRaw "t".data "s".data "@d".data) :=
  ⟨(C3_make_dedup_key "t" "t" "s" "s" "@c" "@c").1 rfl rfl rfl,
   (C3_make_dedup_key "ta" "tb" "s" "s" "@c" "@c").2.1 (by decide),
   (C3_make_dedup_key "t" "t" "sa" "sb" "@c" "@c").2.2.1 (by decide),
   (C3_make_dedup_key "t" "t" "s" "s" "@c" "@d").2.2.2 (by decide)⟩

/-- C3 counterexample: two different titles (they differ at index 1024)
produce the identical dedup key, because the key hashes only the first
1024 characters of the title. -/
theorem C3_counterexample :
    String.mk (List.replicate 1025 'a') ≠
      String.mk (List.replicate 1024 'a' ++ ['b']) ∧
    _make_dedup_key (String.mk (List.replicate 1025 'a')) "s" "@c" =
      _make_dedup_key (String.mk (List.replicate 1024 'a' ++ ['b'])) "s" "@c" := by
  have hsplit : List.replicate 1025 'a' = List.replicate 1024 'a' ++ ['a'] := by
    rw [show (1025 : Nat) = 1024 + 1 from rfl, List.replicate_add]
    rfl
  constructor
  · intro h
    have hd : List.replicate 1025 'a' = List.replicate 1024 'a' ++ ['b'] :=
      congrArg String.data h
    rw [hsplit] at hd
    have := List.append_cancel_left hd
    simp at this
  · unfold _make_dedup_key
    apply congrArg
    unfold dedupRaw
    have h3 : (String.mk (List.replicate 1025 'a')).data.take 1024 =
        (String.mk (List.replicate 1024 'a' ++ ['b'])).data.take 1024 := by
      show (List.replicate 1025 'a').take 1024 =
        (List.replicate 1024 'a' ++ ['b']).take 1024
      rw [hsplit]
      rw [List.take_left' (by rw [List.length_replicate]),
        List.take_left' (by rw [List.length_replicate])]
    rw [h3]

/-! ### `normalize_chat_id` (TotalNews17.py lines 311-330, identical in 19)

`urllib.parse.urlparse` is modelled for the guarded case (inputs starting
with `http://` or `https://`): the netloc is everything after the scheme
up to the first `/`, `?` or `#`; the path runs from there to the first
`?` or `#`.  (The rarely used `;`-parameter splitting of the last path
segment is not modelled; no configured URL contains `;`.) -/

def stripSlashes (s : List Char) : List Char :=
  ((s.dropWhile (fun c => c = '/')).reverse.dropWhile (fun c => c = '/')).reverse

def isNetDelim (c : Char) : Bool := c = '/' || c = '?' || c = '#'

/-- The input after `http://` or `https://`. -/
def schemeRest (s : List Char) : List Char :=
  if "http://".data.isPrefixOf s then s.drop 7 else s.drop 8

def netlocOf (s : List Char) : List Char :=
  (schemeRest s).takeWhile (fun c => !isNetDelim c)

def rawPathOf (s : List Char) : List Char :=
  ((schemeRest s).dropWhile (fun c => !isNetDelim c)).takeWhile
    (fun c => !(c = '?' || c = '#'))

/-- `(u.path or "/").strip("/")`. -/
def pathOf (s : List Char) : List Char :=
  stripSlashes (if (rawPathOf s).isEmpty then ['/'] else rawPathOf s)

/-- `path.split("/")[0]`. -/
def firstSeg (p : List Char) : List Char :=
  p.takeWhile (fun c => !(c = '/'))

/-- `re.fullmatch(r"[A-Za-z0-9_]{5,32}", username)`. -/
def usernameOk (u : List Char) : Bool :=
  decide (5 ≤ u.length) && decide (u.length ≤ 32) && u.all isAsciiWordCh

/-- `path and all(c not in path for c in ["+", "joinchat", "addstickers", "s/"])`. -/
def pathAllowed (p : List Char) : Bool :=
  !p.isEmpty && !containsSub p "+".data && !containsSub p "joinchat".data &&
    !containsSub p "addstickers".data && !containsSub p "s/".data

def isTgNetloc (s : List Char) : Bool :=
  "t.me".data.isSuffixOf (netlocOf s) ||
    "telegram.me".data.isSuffixOf (netlocOf s)

def tmeRewrites (s : List Char) : Bool :=
  isTgNetloc s && pathAllowed (pathOf s) && usernameOk (firstSeg (pathOf s))

/-- Body of `normalize_chat_id` on the stripped string. -/
def normStrCore (s : List Char) : List Char :=
  if s.isEmpty then s
  else if "@".data.isPrefixOf s then s
  else if "http://".data.isPrefixOf s || "https://".data.isPrefixOf s then
    (if tmeRewrites s then '@' :: firstSeg (pathOf s) else s)
  else s

/-- `normalize_chat_id` from TotalNews17.py lines 311-330 (`chat` is an
`int` or a `str`). -/
def normalize_chat_id : Int ⊕ String → Int ⊕ String
  | .inl n => .inl n
  | .inr str => .inr ⟨normStrCore (pyStrip str.data)⟩

theorem word_not_space {c : Char} (h : isAsciiWordCh c = true) :
    isSpaceCh c = false := by
  by_contra hc
  rw [Bool.not_eq_false] at hc
  simp only [isSpaceCh, Bool.or_eq_true, decide_eq_true_eq] at hc
  rcases hc with ((((((rfl | rfl) | rfl) | rfl) | rfl) | rfl) | rfl) <;>
    revert h <;> decide

theorem stripped_at_username {u : List Char} (hok : usernameOk u = true) :
    Stripped ('@' :: u) := by
  simp only [usernameOk, Bool.and_eq_true, decide_eq_true_eq, List.all_eq_true] at hok
  obtain ⟨⟨h5, _⟩, hall⟩ := hok
  constructor
  · simp only [List.headD_cons]
    decide
  · have hu : u ≠ [] := by
      intro hc
      rw [hc] at h5
      simp at h5
    have hr : u.reverse ≠ [] := by simpa using hu
    obtain ⟨c, cs, hc⟩ := List.exists_cons_of_ne_nil hr
    rw [show ('@' :: u).reverse = u.reverse ++ ['@'] by simp, headD_append (by rw [hc]; simp)]
    rw [hc]
    simp only [List.headD_cons]
    exact word_not_space (hall c (by rw [← List.mem_reverse, hc]; simp))

theorem normStrCore_cases (s : List Char) :
    normStrCore s = s ∨
      ∃ u, normStrCore s = '@' :: u ∧ usernameOk u = true := by
  unfold normStrCore
  by_cases h1 : s.isEmpty
  · rw [if_pos h1]; exact Or.inl rfl
  · rw [if_neg h1]
    by_cases h2 : "@".data.isPrefixOf s
    · rw [if_pos h2]; exact Or.inl rfl
    · rw [if_neg h2]
      by_cases h3 : ("http://".data.isPrefixOf s || "https://".data.isPrefixOf s) = true
      · rw [if_pos h3]
        by_cases h4 : tmeRewrites s = true
        · rw [if_pos h4]
          refine Or.inr ⟨firstSeg (pathOf s), rfl, ?_⟩
          unfold tmeRewrites at h4
          simp only [Bool.and_eq_true] at h4
          exact h4.2
        · rw [if_neg h4]; exact Or.inl rfl
      · rw [if_neg h3]; exact Or.inl rfl

theorem normStrCore_at (u : List Char) : normStrCore ('@' :: u) = '@' :: u := by
  unfold normStrCore
  rw [if_neg (by simp)]
  rw [if_pos (by simp [List.isPrefixOf])]

/-- C10 (amended): `normalize_chat_id` is idempotent; integers are
returned unchanged; strings beginning with `@` and carrying no
surrounding whitespace are returned unchanged; and an `http(s)` URL is
rewritten to `@username` only when the netloc ends in `t.me`/`telegram.me`,
the slash-stripped path is nonempty and free of `+`, `joinchat`,
`addstickers`, `s/`, and the FIRST SEGMENT of the path (not necessarily
the whole path) matches `[A-Za-z0-9_]{5,32}` — the username produced is
that first segment. -/
theorem C10_normalize_chat_id :
    (∀ chat, normalize_chat_id (normalize_chat_id chat) = normalize_chat_id chat) ∧
    (∀ n : Int, normalize_chat_id (.inl n) = .inl n) ∧
    (∀ str : String, pyStrip str.data = str.data →
      "@".data.isPrefixOf str.data = true →
      normalize_chat_id (.inr str) = .inr str) ∧
    (∀ str : String,
      ("http://".data.isPrefixOf (pyStrip str.data) ||
        "https://".data.isPrefixOf (pyStrip str.data)) = true →
      normalize_chat_id (.inr str) ≠ .inr ⟨pyStrip str.data⟩ →
      normalize_chat_id (.inr str) =
          .inr ⟨'@' :: firstSeg (pathOf (pyStrip str.data))⟩ ∧
        isTgNetloc (pyStrip str.data) = true ∧
        pathAllowed (pathOf (pyStrip str.data)) = true ∧
        usernameOk (firstSeg (pathOf (pyStrip str.data))) = true) := by
  have hstripidem : ∀ x : List Char, pyStrip (pyStrip x) = pyStrip x :=
    fun x => pyStrip_eq_self (pyStrip_stripped x)
  refine ⟨?_, fun _ => rfl, ?_, ?_⟩
  · intro chat
    match chat with
    | .inl n => rfl
    | .inr str =>
      show (Sum.inr (String.mk (normStrCore (pyStrip
          (normStrCore (pyStrip str.data))))) : Int ⊕ String) =
        Sum.inr (String.mk (normStrCore (pyStrip str.data)))
      rcases normStrCore_cases (pyStrip str.data) with h | ⟨u, hu, hok⟩
      · rw [h, hstripidem, h]
      · rw [hu, pyStrip_eq_self (stripped_at_username hok), normStrCore_at]
  · intro str h1 h2
    show (Sum.inr (String.mk (normStrCore (pyStrip str.data))) : Int ⊕ String) = .inr str
    rw [h1]
    have hne : ¬ (str.data.isEmpty = true) := by
      intro hc
      have : str.data = [] := by simpa using hc
      rw [this] at h2
      simp [List.isPrefixOf] at h2
    unfold normStrCore
    rw [if_neg hne, if_pos h2]
  · intro str h1 hne
    have hkey : normalize_chat_id (.inr str) =
        .inr (String.mk (normStrCore (pyStrip str.data))) := rfl
    have hempty : ¬ ((pyStrip str.data).isEmpty = true) := by
      intro hc
      have hz : pyStrip str.data = [] := by simpa using hc
      rw [hz] at h1
      simp [List.isPrefixOf] at h1
    have hat : ¬ ("@".data.isPrefixOf (pyStrip str.data) = true) := by
      intro hc
      rw [ List.isPrefixOf_iff_prefix] at hc
      rw [Bool.or_eq_true] at h1
      rcases h1 with h1 | h1
      · rw [ List.isPrefixOf_iff_prefix] at h1
        have := List.prefix_of_prefix_length_le hc h1 (by decide)
        revert this; decide
      · rw [ List.isPrefixOf_iff_prefix] at h1
        have := List.prefix_of_prefix_length_le hc h1 (by decide)
        revert this; decide
    have h1b : ("http://".data.isPrefixOf (pyStrip str.data) ||
        "https://".data.isPrefixOf (pyStrip str.data)) = true := h1
    rw [hkey] at hne ⊢
    unfold normStrCore at hne ⊢
    rw [if_neg hempty, if_neg hat, if_pos h1b] at hne ⊢
    by_cases h4 : tmeRewrites (pyStrip str.data) = true
    · rw [if_pos h4] at hne ⊢
      unfold tmeRewrites at h4
      simp only [Bool.and_eq_true] at h4
      exact ⟨rfl, h4.1.1, h4.1.2, h4.2⟩
    · rw [if_neg h4] at hne
      exact absurd rfl hne

/-- Witness for C10: the unchanged-`@`-string part and the rewrite part
applied at concrete inputs. -/
theorem C10_witness :
    normalize_chat_id (.inr "@already") = .inr "@already" ∧
    (normalize_chat_id (.inr "https://t.me/abcdef/123") =
        .inr (String.mk ('@' ::
          firstSeg (pathOf (pyStrip ("https://t.me/abcdef/123" : String).data)))) ∧
      isTgNetloc (pyStrip ("https://t.me/abcdef/123" : String).data) = true ∧
      pathAllowed (pathOf (pyStrip ("https://t.me/abcdef/123" : String).data)) = true ∧
      usernameOk (firstSeg (pathOf (pyStrip ("https://t.me/abcdef/123" : String).data))) = true) :=
  ⟨C10_normalize_chat_id.2.2.1 "@already" (by decide) (by decide),
   C10_normalize_chat_id.2.2.2 "https://t.me/abcdef/123" (by decide) (by decide)⟩

/-- C10 counterexample: `https://t.me/abcdef/123` is rewritten to
`@abcdef` although its path `abcdef/123` is not a bare username matching
`[A-Za-z0-9_]{5,32}` — only the first path segment is checked. -/
theorem C10_counterexample :
    normalize_chat_id (.inr "https://t.me/abcdef/123") = .inr "@abcdef" ∧
    pathOf (pyStrip ("https://t.me/abcdef/123" : String).data) = "abcdef/123".data ∧
    usernameOk "abcdef/123".data = false :=
  ⟨by decide, by decide, by decide⟩

/-! ### `looks_like_ad` of TotalNews17.py (lines 177-205)

TotalNews17's classifier has four detectors: its `AD_KEYWORDS` list is
shorter than TotalNews19's (no call-to-action words beyond `в личку`/`в лс`),
there is no `CTA_RE`, and its `WORKTIME_RE` hour separator is `[:\.]`
(exactly one) instead of `[:\.]*`. -/

/-- Alternatives of `AD_KEYWORDS` from TotalNews17.py lines 177-190
(`акци[яи]` and `объявлени[ея]` expanded). -/
def AD_KEYWORDS17_WORDS : List (List Char) :=
  ["реклам".data, "промо".data, "партнерск".data, "партнёрск".data,
   "спонсор".data, "скидк".data, "акция".data, "акции".data,
   "распродаж".data, "заказ".data, "заказывай".data, "оформить".data,
   "ждем вас".data, "ждём вас".data, "доставк".data, "самовывоз".data,
   "меню".data, "ассортимент".data, "каталог".data, "кафе".data,
   "пекарн".data, "кофейн".data, "салон".data, "барбершоп".data,
   "парикмахер".data, "студия".data, "маникюр".data, "ногтев".data,
   "массаж".data, "курсы".data, "тренинг".data, "школа".data,
   "секции".data, "магазин".data, "бутик".data, "showroom".data,
   "аренда".data, "сдам".data, "сдается".data, "сдаётся".data,
   "продам".data, "куплю".data, "купить".data, "барахолка".data,
   "объявление".data, "объявления".data, "объявы".data, "закажите".data,
   "цена".data, "прайс".data, "сколько стоит".data, "приглашаем".data,
   "приглашаю".data, "в личку".data, "в лс".data]

/-- TotalNews17's `AD_KEYWORDS.search`. -/
def adKeywordsSearch17 (s : List Char) : Bool :=
  AD_KEYWORDS17_WORDS.any (fun w => searchAtB (wordHit w) false s)

/-- `\d{1,2}[:\.]\d{2}` of TotalNews17's `WORKTIME_RE` (the separator is
exactly one of `:`/`.`; the greedy two-digit choice is tried first, and a
failed two-digit branch leaves a digit where the separator must stand, so
the local backtracking is exact). -/
def timePart17 (s : List Char) : Option (List Char) :=
  let sep : List Char → Option (List Char) := fun r =>
    match r with
    | c :: cs => if c = ':' || c = '.' then some cs else none
    | [] => none
  match (digitsN 2 s).bind (fun r => (sep r).bind (digitsN 2)) with
  | some r => some r
  | none => (digitsN 1 s).bind (fun r => (sep r).bind (digitsN 2))

/-- Second alternative of TotalNews17's `WORKTIME_RE`:
`с\s*\d{1,2}[:\.]\d{2}\s*до\s*\d{1,2}[:\.]\d{2}` followed by `\b`. -/
def workTimeAt17 (s : List Char) : Bool :=
  match litCI "с".data s with
  | none => false
  | some r =>
    let r := r.dropWhile isSpaceCh
    match timePart17 r with
    | none => false
    | some r =>
      let r := r.dropWhile isSpaceCh
      match litCI "до".data r with
      | none => false
      | some r =>
        let r := r.dropWhile isSpaceCh
        match timePart17 r with
        | none => false
        | some r =>
          match r with
          | [] => true
          | c :: _ => !isWordCh c

/-- TotalNews17's `WORKTIME_RE.search`. -/
def worktimeSearch17 (s : List Char) : Bool :=
  searchAtB (wordHit "ежедневно".data) false s || searchAtB workTimeAt17 false s

/-- Signal sum of TotalNews17's `looks_like_ad` (lines 196-205). -/
def signalCount17 (low : List Char) : Nat :=
  (if adKeywordsSearch17 low then 1 else 0) +
  (if phoneSearch low then 1 else 0) +
  (if priceSearch low then 1 else 0) +
  (if worktimeSearch17 low then 1 else 0)

/-- `looks_like_ad` from TotalNews17.py lines 196-205 (four detectors). -/
def looks_like_ad17 (t : String) : Bool :=
  if t.data.isEmpty then false
  else decide (2 ≤ signalCount17 (pyLower t.data))

/-! ### The dedup store and the dispatch phase of `process_district`
(TotalNews17.py lines 506-515 and 662-701)

The sqlite table `sent (chat TEXT, key TEXT, sent_at_utc TEXT,
PRIMARY KEY(chat, key))` is modelled as a list of rows; `INSERT OR
REPLACE` drops the row with the same primary key and prepends the new
one.  `send_item` (the network dispatch) and the `utcnow()` clock are
oracles; timestamps are seconds since the epoch. -/

/-- A feed item as consumed by `process_district` (the `it.get(...)`
fields; absent fields are already normalised to `""`/`[]`/`None` by the
getters). -/
structure Item where
  title : String
  summary : String
  source : String
  published : Option Int
  raw : String
  photo_urls : List String
  video_urls : List String

/-- A row of the `sent` table: `(chat, key, sent_at_utc)`. -/
abbrev SentRow := String × String × String

/-- `already_sent` (TotalNews17.py lines 506-508):
`SELECT 1 FROM sent WHERE chat=? AND key=?` is nonempty. -/
def already_sent (db : List SentRow) (chat key : String) : Bool :=
  db.any (fun r => decide (r.1 = chat) && decide (r.2.1 = key))

/-- `mark_sent` (TotalNews17.py lines 510-515): `INSERT OR REPLACE INTO
sent` — any row with the same `(chat, key)` primary key is replaced. -/
def mark_sent (db : List SentRow) (chat key ts : String) : List SentRow :=
  (chat, key, ts) :: db.filter (fun r => !(decide (r.1 = chat) && decide (r.2.1 = key)))

/-- The dedup key of an item (`_make_dedup_key(title, summary, source)`,
TotalNews17.py line 693). -/
def item_key (it : Item) : String :=
  _make_dedup_key it.title it.summary it.source

/-- The send loop of `process_district` (TotalNews17.py lines 690-700):
for each item in order the store is queried; when the key is absent the
item is dispatched (`send_item`, modelled by the oracle `send`) and
recorded via `mark_sent` exactly when the dispatch succeeded.  Returns
the final store and the dispatch trace (item, success). -/
def sendLoop (send : Item → Bool) (ts chat : String) :
    List Item → List SentRow → List SentRow × List (Item × Bool)
  | [], db => (db, [])
  | it :: rest, db =>
    if already_sent db chat (item_key it) then sendLoop send ts chat rest db
    else
      ((sendLoop send ts chat rest
          (if send it then mark_sent db chat (item_key it) ts else db)).1,
       (it, send it) ::
         (sendLoop send ts chat rest
           (if send it then mark_sent db chat (item_key it) ts else db)).2)

/-- TotalNews17.py line 39. -/
def FRESH_HOURS : Nat := 48

/-- TotalNews17.py line 40. -/
def MAX_POSTS_PER_CHAT : Nat := 5

/-- `looks_recent` (TotalNews17.py lines 100-101): a dated item at most
`FRESH_HOURS` old (`now` is the `utcnow()` oracle). -/
def looks_recent (now : Int) (dt : Option Int) : Bool :=
  match dt with
  | none => false
  | some d => decide (now - d ≤ (FRESH_HOURS : Int) * 3600)

/-- `mentions_local` (TotalNews17.py lines 644-646). -/
def mentions_local (text : String) (toponyms : List String) : Bool :=
  let low := (pyLower text.data).map (fun c => if c = 'ё' then 'е' else c)
  toponyms.any (fun tp => containsSub low tp.data)

/-- `" ".join([title, summary, raw]).strip()` (TotalNews17.py line 678). -/
def full_text_of (it : Item) : String :=
  String.mk (pyStrip (it.title.data ++ ' ' :: it.summary.data ++ ' ' :: it.raw.data))

/-- The filter of `process_district` (TotalNews17.py lines 674-683). -/
def passes_filter (now : Int) (toponyms : List String) (it : Item) : Bool :=
  looks_recent now it.published &&
  !looks_like_ad17 (full_text_of it) &&
  (toponyms.isEmpty || mentions_local (full_text_of it) toponyms)

/-- The sort key (`x.get("published") or datetime.fromtimestamp(0)`,
TotalNews17.py line 688): an undated item sorts at the epoch. -/
def pubKey (it : Item) : Int := it.published.getD 0

/-- Comparator of `filtered.sort(key=..., reverse=True)`: descending by
`pubKey` (both CPython's sort and `mergeSort` are stable, so ties keep
their original order under this comparator). -/
def byRecency (a b : Item) : Bool := decide (pubKey b ≤ pubKey a)

/-- Filter, sort and dispatch phase of `process_district`
(TotalNews17.py lines 673-700). -/
def process_district_dispatch (send : Item → Bool) (ts : String) (now : Int)
    (chat : String) (toponyms : List String) (db : List SentRow)
    (raw : List Item) : List SentRow × List (Item × Bool) :=
  sendLoop send ts chat
    (((raw.filter (passes_filter now toponyms)).mergeSort byRecency).take
      MAX_POSTS_PER_CHAT) db

theorem already_sent_mark (db : List SentRow) (chat key ts c k : String) :
    already_sent (mark_sent db chat key ts) c k = true ↔
      ((c = chat ∧ k = key) ∨ already_sent db c k = true) := by
  unfold already_sent mark_sent
  simp only [List.any_eq_true, List.mem_cons, List.mem_filter, Bool.and_eq_true,
    decide_eq_true_eq]
  constructor
  · rintro ⟨r, hr | ⟨hrdb, _⟩, h1, h2⟩
    · rw [hr] at h1 h2
      exact Or.inl ⟨h1.symm, h2.symm⟩
    · exact Or.inr ⟨r, hrdb, h1, h2⟩
  · rintro (⟨rfl, rfl⟩ | ⟨r, hrdb, h1, h2⟩)
    · exact ⟨(c, k, ts), Or.inl rfl, rfl, rfl⟩
    · by_cases hc : r.1 = chat ∧ r.2.1 = key
      · exact ⟨(chat, key, ts), Or.inl rfl, by rw [← hc.1]; exact h1,
          by rw [← hc.2]; exact h2⟩
      · refine ⟨r, Or.inr ⟨hrdb, ?_⟩, h1, h2⟩
        have hfalse : (decide (r.1 = chat) && decide (r.2.1 = key)) = false := by
          rcases not_and_or.mp hc with h | h
          · simp [h]
          · simp [h]
        simp [hfalse]

theorem already_sent_mono {db : List SentRow} {c k : String}
    (chat key ts : String) (h : already_sent db c k = true) :
    already_sent (mark_sent db chat key ts) c k = true :=
  (already_sent_mark db chat key ts c k).mpr (Or.inr h)

theorem sendLoop_trace (send : Item → Bool) (ts chat : String) :
    ∀ (items : List Item) (db : List SentRow) (it : Item) (ok : Bool),
      (it, ok) ∈ (sendLoop send ts chat items db).2 →
      ok = send it ∧ already_sent db chat (item_key it) = false := by
  intro items
  induction items with
  | nil => intro db it ok h; simp [sendLoop] at h
  | cons a rest ih =>
    intro db it ok h
    have hstep : sendLoop send ts chat (a :: rest) db =
        if already_sent db chat (item_key a) then sendLoop send ts chat rest db
        else
          ((sendLoop send ts chat rest
              (if send a then mark_sent db chat (item_key a) ts else db)).1,
           (a, send a) ::
             (sendLoop send ts chat rest
               (if send a then mark_sent db chat (item_key a) ts else db)).2) := rfl
    cases hprev : already_sent db chat (item_key a) with
    | true =>
      rw [hstep, if_pos hprev] at h
      exact ih db it ok h
    | false =>
      rw [hstep, if_neg (by simp [hprev])] at h
      dsimp only at h
      rcases List.mem_cons.mp h with heq | htail
      · rw [Prod.mk.injEq] at heq
        obtain ⟨rfl, rfl⟩ := heq
        exact ⟨rfl, hprev⟩
      · obtain ⟨hok, hdb2⟩ := ih _ it ok htail
        refine ⟨hok, ?_⟩
        by_cases hs : send a = true
        · rw [if_pos hs] at hdb2
          cases hx : already_sent db chat (item_key it) with
          | false => rfl
          | true =>
            exact absurd (already_sent_mono chat (item_key a) ts hx)
              (by simp [hdb2])
        · rw [if_neg hs] at hdb2
          exact hdb2

theorem sendLoop_mem (send : Item → Bool) (ts chat : String) :
    ∀ (items : List Item) (db : List SentRow) (c k : String),
      (already_sent (sendLoop send ts chat items db).1 c k = true ↔
        (already_sent db c k = true ∨
          (c = chat ∧ ∃ it, (it, true) ∈ (sendLoop send ts chat items db).2 ∧
            item_key it = k))) := by
  intro items
  induction items with
  | nil =>
    intro db c k
    simp [sendLoop]
  | cons a rest ih =>
    intro db c k
    have hstep : sendLoop send ts chat (a :: rest) db =
        if already_sent db chat (item_key a) then sendLoop send ts chat rest db
        else
          ((sendLoop send ts chat rest
              (if send a then mark_sent db chat (item_key a) ts else db)).1,
           (a, send a) ::
             (sendLoop send ts chat rest
               (if send a then mark_sent db chat (item_key a) ts else db)).2) := rfl
    cases hprev : already_sent db chat (item_key a) with
    | true =>
      rw [hstep, if_pos hprev]
      exact ih db c k
    | false =>
      cases hs : send a with
      | true =>
        rw [hstep, if_neg (by simp [hprev]), if_pos hs]
        dsimp only
        rw [ih (mark_sent db chat (item_key a) ts) c k, already_sent_mark, hs]
        constructor
        · rintro ((⟨rfl, rfl⟩ | hdb) | ⟨rfl, it, hmem, hkey⟩)
          · exact Or.inr ⟨rfl, a, List.mem_cons_self _ _, rfl⟩
          · exact Or.inl hdb
          · exact Or.inr ⟨rfl, it, List.mem_cons_of_mem _ hmem, hkey⟩
        · rintro (hdb | ⟨rfl, it, hmem, hkey⟩)
          · exact Or.inl (Or.inr hdb)
          · rcases List.mem_cons.mp hmem with heq | htail
            · rw [Prod.mk.injEq] at heq
              obtain ⟨rfl, -⟩ := heq
              exact Or.inl (Or.inl ⟨rfl, hkey.symm⟩)
            · exact Or.inr ⟨rfl, it, htail, hkey⟩
      | false =>
        rw [hstep, if_neg (by simp [hprev]), if_neg (by simp [hs]), hs]
        dsimp only
        rw [ih db c k]
        constructor
        · rintro (hdb | ⟨rfl, it, hmem, hkey⟩)
          · exact Or.inl hdb
          · exact Or.inr ⟨rfl, it, List.mem_cons_of_mem _ hmem, hkey⟩
        · rintro (hdb | ⟨rfl, it, hmem, hkey⟩)
          · exact Or.inl hdb
          · rcases List.mem_cons.mp hmem with heq | htail
            · rw [Prod.mk.injEq] at heq
              exact absurd heq.2 (by decide)
            · exact Or.inr ⟨rfl, it, htail, hkey⟩

theorem sendLoop_trace_fst (send : Item → Bool) (ts chat : String) :
    ∀ (items : List Item) (db : List SentRow),
      ((sendLoop send ts chat items db).2.map Prod.fst).Sublist items := by
  intro items
  induction items with
  | nil => intro db; simp [sendLoop]
  | cons a rest ih =>
    intro db
    have hstep : sendLoop send ts chat (a :: rest) db =
        if already_sent db chat (item_key a) then sendLoop send ts chat rest db
        else
          ((sendLoop send ts chat rest
              (if send a then mark_sent db chat (item_key a) ts else db)).1,
           (a, send a) ::
             (sendLoop send ts chat rest
               (if send a then mark_sent db chat (item_key a) ts else db)).2) := rfl
    cases hprev : already_sent db chat (item_key a) with
    | true =>
      rw [hstep, if_pos hprev]
      exact (ih db).cons a
    | false =>
      rw [hstep, if_neg (by simp [hprev])]
      dsimp only
      simp only [List.map_cons]
      exact (ih _).cons₂ a

theorem mergeSort_byRecency_pairwise (l : List Item) :
    (l.mergeSort byRecency).Pairwise (fun a b => pubKey b ≤ pubKey a) := by
  have htrans : ∀ (a b c : Item), byRecency a b → byRecency b c → byRecency a c := by
    intro a b c hab hbc
    simp only [byRecency, decide_eq_true_eq] at *
    omega
  have htotal : ∀ (a b : Item), byRecency a b || byRecency b a := by
    intro a b
    simp only [byRecency]
    rcases Int.le_total (pubKey b) (pubKey a) with h | h
    · simp [h]
    · simp [h]
  have h := List.sorted_mergeSort htrans htotal l
  exact h.imp (fun hab => by simpa [byRecency] using hab)

/-- C2: in the dispatch phase of `process_district` the dedup store is
queried immediately before each dispatch — every traced dispatch carried a
key absent from the store at loop entry — and a `(chat, key)` row exists
afterwards exactly for the initially present rows plus the dispatches
that reported success; a failed dispatch writes nothing, so its item
stays eligible for a future run. -/
theorem C2_dedup_discipline (send : Item → Bool) (ts : String) (now : Int)
    (chat : String) (toponyms : List String) (db : List SentRow)
    (raw : List Item) :
    (∀ c k,
      already_sent (process_district_dispatch send ts now chat toponyms db raw).1 c k = true ↔
        (already_sent db c k = true ∨
          (c = chat ∧ ∃ it,
            (it, true) ∈ (process_district_dispatch send ts now chat toponyms db raw).2 ∧
            item_key it = k))) ∧
    (∀ it ok,
      (it, ok) ∈ (process_district_dispatch send ts now chat toponyms db raw).2 →
        ok = send it ∧ already_sent db chat (item_key it) = false) :=
  ⟨fun c k => sendLoop_mem send ts chat _ db c k,
   fun it ok h => sendLoop_trace send ts chat _ db it ok h⟩

/-- C9: the dispatch phase of `process_district` attempts at most
`MAX_POSTS_PER_CHAT` items per target per run, and the attempted items
are in descending order of their published timestamp (undated items
sorting at the epoch). -/
theorem C9_dispatch_order_and_cap (send : Item → Bool) (ts : String) (now : Int)
    (chat : String) (toponyms : List String) (db : List SentRow)
    (raw : List Item) :
    (process_district_dispatch send ts now chat toponyms db raw).2.length ≤
      MAX_POSTS_PER_CHAT ∧
    ((process_district_dispatch send ts now chat toponyms db raw).2.map
      Prod.fst).Pairwise (fun a b => pubKey b ≤ pubKey a) := by
  have hsub := sendLoop_trace_fst send ts chat
    (((raw.filter (passes_filter now toponyms)).mergeSort byRecency).take
      MAX_POSTS_PER_CHAT) db
  constructor
  · have hlen := hsub.length_le
    rw [List.length_map] at hlen
    exact le_trans hlen (List.length_take_le _ _)
  · have hpw := mergeSort_byRecency_pairwise (raw.filter (passes_filter now toponyms))
    have htake := hpw.sublist (List.take_sublist MAX_POSTS_PER_CHAT
      ((raw.filter (passes_filter now toponyms)).mergeSort byRecency))
    exact htake.sublist hsub

/-! ### `_extract_posts_from_html` (TotalNews17.py lines 406-454)

The BeautifulSoup layer is outside the embedding: a `.tgme_widget_message_wrap`
node is represented by the attributes the code reads from it — the parsed
timestamp of its `<time>` element (already `None` when the element is
missing or `extract_datetime` fails), the parsed `title` of its date
anchor, the joined text of its text/description block (`""` when absent),
and the photo/video URLs in document order.  The per-message logic —
the pinned-message drop, `sanitize`, video dedup and the final guard —
is translated from the source. -/

/-- A parsed `.tgme_widget_message_wrap` node (the attributes read by the
extractor; timestamps in seconds). -/
structure TgMsg where
  time_dt : Option Int
  date_title_dt : Option Int
  raw_txt : String
  photos : List String
  videos : List String

/-- Timestamp resolution (lines 411-417): the `<time>` element first,
the date anchor's `title` only when that yielded nothing. -/
def msgDt (m : TgMsg) : Option Int :=
  match m.time_dt with
  | some d => some d
  | none => m.date_title_dt

/-- Word count of Python `str.split()` (maximal nonspace runs); the flag
records whether the previous character was a nonspace. -/
def pyWordCount : Bool → List Char → Nat
  | _, [] => 0
  | inw, c :: cs =>
    if isSpaceCh c then pyWordCount false cs
    else (if inw then 0 else 1) + pyWordCount true cs

/-- `закрепил[аио]?\b` (the middle alternative of `PINNED_PAT`,
TotalNews17.py line 118), at this position. -/
def pinnedMid (s : List Char) : Bool :=
  match litCI "закрепил".data s with
  | some r => (optCharThenB "аио".data r).isSome
  | none => false

/-- `PINNED_PAT.search` — `(?i)\bpinned\b|\bзакрепил[аио]?\b|\bзакреплено\b`. -/
def pinnedSearch (s : List Char) : Bool :=
  searchAtB (wordHit "pinned".data) false s ||
  searchAtB pinnedMid false s ||
  searchAtB (wordHit "закреплено".data) false s

/-- `list(dict.fromkeys(l))`: drop duplicates keeping first occurrences. -/
def dedupKeepFirst : List String → List String
  | [] => []
  | x :: xs => x :: (dedupKeepFirst xs).filter (fun y => !decide (y = x))

/-- An extracted post (`items.append({...})`, TotalNews17.py lines 446-453;
timezone normalisation of the `datetime` is outside the embedding). -/
structure RawPost where
  published : Int
  text : String
  photo_urls : List String
  video_urls : List String

/-- The per-message body of the extractor loop (TotalNews17.py lines
410-453): `None` when the message is a short pinned marker or fails the
final `if dt and (txt or photos or videos)` guard. -/
def msgToPost (m : TgMsg) : Option RawPost :=
  if pinnedSearch m.raw_txt.data && decide (pyWordCount false m.raw_txt.data ≤ 6) then
    none
  else
    match msgDt m with
    | none => none
    | some dt =>
      let txt := sanitize m.raw_txt
      if !txt.data.isEmpty || !m.photos.isEmpty || !(dedupKeepFirst m.videos).isEmpty then
        some ⟨dt, txt, dedupKeepFirst m.photos, dedupKeepFirst m.videos⟩
      else none

/-- `_extract_posts_from_html` over the parsed message nodes. -/
def _extract_posts_from_html (msgs : List TgMsg) : List RawPost :=
  msgs.filterMap msgToPost

/-- C5: a parsed message with no timestamp from either source and with
neither text nor any photo or video URL yields no `RawPost` — it is
dropped from the extractor's output wherever it occurs. -/
theorem C5_extract_drop (m : TgMsg) (pre post : List TgMsg)
    (h1 : m.time_dt = none) (h2 : m.date_title_dt = none)
    (h3 : m.raw_txt = "") (_h4 : m.photos = []) (_h5 : m.videos = []) :
    msgToPost m = none ∧
    _extract_posts_from_html (pre ++ m :: post) =
      _extract_posts_from_html pre ++ _extract_posts_from_html post := by
  have hdt : msgDt m = none := by
    unfold msgDt
    rw [h1, h2]
  have hnone : msgToPost m = none := by
    unfold msgToPost
    rw [h3, hdt]
    simp [show (pinnedSearch "".data &&
      decide (pyWordCount false "".data ≤ 6)) = false from by decide]
  refine ⟨hnone, ?_⟩
  unfold _extract_posts_from_html
  rw [List.filterMap_append, List.filterMap_cons_none hnone]

/-- C5 witness: the empty, undated message is dropped. -/
theorem C5_witness :
    msgToPost ⟨none, none, "", [], []⟩ = none ∧
    _extract_posts_from_html ([] ++ ⟨none, none, "", [], []⟩ :: []) =
      _extract_posts_from_html [] ++ _extract_posts_from_html [] :=
  C5_extract_drop ⟨none, none, "", [], []⟩ [] [] rfl rfl rfl rfl rfl

/-! ### `download_binary` and `prepare_media` (TotalNews17.py lines 207-288)

The HTTP layer is outside the embedding: a response is its status code,
`content-type` header and the chunk stream of `iter_content(32768)`
(bytes as `Nat`).  `IMG_EXT_RE`/`VIDEO_EXT_RE` (`\.(…)(?:\?.*)?$`) and
`TELEGRAM_CDN_RE` (`^https?://[^/]*telegram[^/]*\.(?:org|cdn)/.*`) are
hand-compiled with Python `re` semantics (`.` excludes newline, `$` also
matches before a final newline, `IGNORECASE`). -/

/-- An HTTP response as consumed by `download_binary`. -/
structure HttpResponse where
  status : Nat
  content_type : String
  chunks : List (List Nat)

/-- `.*$` after the optional `?`: the rest is newline-free, or newline-free
up to a single final newline (Python `$`). -/
def matchDotStarEnd (t : List Char) : Bool :=
  t.all (fun c => !decide (c = '\n')) ||
  (match t.getLast? with
   | some c => decide (c = '\n') && t.dropLast.all (fun c => !decide (c = '\n'))
   | none => false)

/-- One alternative of `\.(…)(?:\?.*)?$` at this position: the literal
(dot included), then end of string or `?` and `.*$`. -/
def extHit (alts : List (List Char)) (s : List Char) : Bool :=
  alts.any (fun w =>
    match litCI w s with
    | some r =>
      r.isEmpty ||
        (match r with
         | '?' :: t => matchDotStarEnd t
         | _ => false)
    | none => false)

/-- `re.search` of an extension pattern (no anchor: every position). -/
def extSearch (alts : List (List Char)) : List Char → Bool
  | [] => false
  | c :: cs => extHit alts (c :: cs) || extSearch alts cs

/-- Alternatives of `IMG_EXT_RE` — `\.(jpe?g|png|webp|gif)(?:\?.*)?$`. -/
def IMG_EXT_ALTS : List (List Char) :=
  [".jpg".data, ".jpeg".data, ".png".data, ".webp".data, ".gif".data]

/-- Alternatives of `VIDEO_EXT_RE` — `\.(mp4|mov|webm)(?:\?.*)?$`. -/
def VIDEO_EXT_ALTS : List (List Char) :=
  [".mp4".data, ".mov".data, ".webm".data]

/-- `[^/]*\.(?:org|cdn)/` after the host's `telegram`: scan forward without
crossing a `/` until `.org/` or `.cdn/` matches (the scan positions cover
the backtracking of the greedy `[^/]*`). -/
def cdnAfterTelegram : List Char → Bool
  | [] => false
  | c :: cs =>
    (litCI ".org/".data (c :: cs)).isSome ||
    (litCI ".cdn/".data (c :: cs)).isSome ||
    (!decide (c = '/') && cdnAfterTelegram cs)

/-- `[^/]*telegram…` of `TELEGRAM_CDN_RE`: find `telegram` in the host part
without crossing a `/`. -/
def cdnHostScan : List Char → Bool
  | [] => false
  | c :: cs =>
    (match litCI "telegram".data (c :: cs) with
     | some r => cdnAfterTelegram r
     | none => false) ||
    (!decide (c = '/') && cdnHostScan cs)

/-- `TELEGRAM_CDN_RE` — `^https?://[^/]*telegram[^/]*\.(?:org|cdn)/.*`
(the trailing `.*` matches the empty string, so only the `/` is needed). -/
def telegramCdnMatch (u : List Char) : Bool :=
  match litCI "https://".data u with
  | some r => cdnHostScan r
  | none =>
    match litCI "http://".data u with
    | some r => cdnHostScan r
    | none => false

/-- `is_image_url` (TotalNews17.py lines 212-213). -/
def is_image_url (u : String) : Bool :=
  !u.data.isEmpty && "http".data.isPrefixOf u.data &&
    (extSearch IMG_EXT_ALTS u.data || telegramCdnMatch u.data)

/-- `is_video_url` (TotalNews17.py lines 215-216). -/
def is_video_url (u : String) : Bool :=
  !u.data.isEmpty && "http".data.isPrefixOf u.data &&
    (extSearch VIDEO_EXT_ALTS u.data || telegramCdnMatch u.data)

/-- The kind/extension heuristic of `download_binary` (lines 229-247);
`ct` is the lowercased `content-type`, `none` is the `else: return None`
branch. -/
def mediaKindExt (ct : List Char) (url : String) : Option (String × String) :=
  if containsSub ct "image/".data then
    some ((if containsSub ct "png".data then ".png"
           else if containsSub ct "webp".data then ".webp"
           else if containsSub ct "gif".data then ".gif"
           else ".jpg"), "image")
  else if containsSub ct "video/".data || extSearch VIDEO_EXT_ALTS url.data then
    some ((if containsSub ct "webm".data ||
              ".webm".data.isSuffixOf (pyLower url.data) then ".webm"
           else ".mp4"), "video")
  else none

/-- Default of the `max_bytes` parameter (line 218). -/
def MAX_DOWNLOAD_BYTES : Nat := 50 * 1024 * 1024

/-- The streaming loop of `download_binary` (lines 249-259): empty chunks
are skipped (`if chunk:`); after writing a chunk the running total is
checked and the download aborts with `None` the moment it exceeds
`maxBytes`.  Returns the concatenated data on completion. -/
def downloadLoop (maxBytes : Nat) : List (List Nat) → Nat → Option (List Nat)
  | [], _ => some []
  | ch :: rest, total =>
    if ch.isEmpty then downloadLoop maxBytes rest total
    else if maxBytes < total + ch.length then none
    else (downloadLoop maxBytes rest (total + ch.length)).map (fun d => ch ++ d)

/-- `download_binary` (lines 218-278) over a given response: `None` on an
HTTP error status, an unrecognised content type, a ceiling abort, or empty
data; otherwise `(name, data, kind)`. -/
def download_binary (r : HttpResponse) (url : String) (maxBytes : Nat) :
    Option (String × List Nat × String) :=
  if 400 ≤ r.status then none
  else
    match mediaKindExt (pyLower r.content_type.data) url with
    | none => none
    | some (ext, kind) =>
      match downloadLoop maxBytes r.chunks 0 with
      | none => none
      | some data => if data.isEmpty then none else some ("media" ++ ext, data, kind)

/-- `str.replace("&amp;", "&")`: left-to-right, non-overlapping, resuming
after each replacement (the pending-skip counter keeps the recursion
structural). -/
def ampGo (k : Nat) : List Char → List Char
  | [] => []
  | c :: cs =>
    match k with
    | k' + 1 => ampGo k' cs
    | 0 =>
      if "&amp;".data.isPrefixOf (c :: cs) then '&' :: ampGo 4 cs
      else c :: ampGo 0 cs

/-- `(u or "").strip().replace("&amp;", "&")` (line 282). -/
def normCand (u : String) : String := String.mk (ampGo 0 (pyStrip u.data))

/-- `prepare_media` (lines 280-288): the downloader (network fetch plus
`download_binary` for that URL) is the oracle `dl`; candidates that fail
the URL filters or whose download returns `None` are skipped, the first
success is returned, and `None` is the fallback. -/
def prepare_media (dl : String → Option (String × List Nat × String)) :
    List String → Option (String × List Nat × String)
  | [] => none
  | u :: rest =>
    if !(is_image_url (normCand u) || is_video_url (normCand u)) then
      prepare_media dl rest
    else
      match dl (normCand u) with
      | some got => some got
      | none => prepare_media dl rest

theorem downloadLoop_cons (maxBytes : Nat) (ch : List Nat)
    (l : List (List Nat)) (t : Nat) :
    downloadLoop maxBytes (ch :: l) t =
      if ch.isEmpty then downloadLoop maxBytes l t
      else if maxBytes < t + ch.length then none
      else (downloadLoop maxBytes l (t + ch.length)).map (fun d => ch ++ d) := rfl

theorem downloadLoop_abort (maxBytes : Nat) :
    ∀ (pre suf : List (List Nat)) (t : Nat), t ≤ maxBytes →
      maxBytes < t + (pre.map List.length).sum →
      downloadLoop maxBytes (pre ++ suf) t = none := by
  intro pre
  induction pre with
  | nil =>
    intro suf t h1 h2
    simp only [List.map_nil, List.sum_nil] at h2
    omega
  | cons ch pre ih =>
    intro suf t h1 h2
    simp only [List.map_cons, List.sum_cons] at h2
    rw [List.cons_append, downloadLoop_cons]
    by_cases hch : ch.isEmpty = true
    · have hlen : ch.length = 0 := by
        rw [List.isEmpty_iff] at hch
        rw [hch]
        rfl
      rw [if_pos hch]
      exact ih suf t h1 (by omega)
    · rw [if_neg hch]
      by_cases hcap : maxBytes < t + ch.length
      · rw [if_pos hcap]
      · rw [if_neg hcap, ih suf (t + ch.length) (by omega) (by omega)]
        rfl

theorem downloadLoop_bound (maxBytes : Nat) :
    ∀ (chunks : List (List Nat)) (t : Nat) (data : List Nat), t ≤ maxBytes →
      downloadLoop maxBytes chunks t = some data → t + data.length ≤ maxBytes := by
  intro chunks
  induction chunks with
  | nil =>
    intro t data h1 h2
    have h0 : downloadLoop maxBytes [] t = some [] := rfl
    rw [h0, Option.some_inj] at h2
    rw [← h2]
    simpa using h1
  | cons ch rest ih =>
    intro t data h1 h2
    rw [downloadLoop_cons] at h2
    by_cases hch : ch.isEmpty = true
    · rw [if_pos hch] at h2
      exact ih t data h1 h2
    · rw [if_neg hch] at h2
      by_cases hcap : maxBytes < t + ch.length
      · rw [if_pos hcap] at h2
        exact absurd h2 (by simp)
      · rw [if_neg hcap] at h2
        rcases Option.map_eq_some'.mp h2 with ⟨d, hd, hdata⟩
        have hb := ih (t + ch.length) d (by omega) hd
        rw [← hdata, List.length_append]
        omega

theorem prepare_media_cons (dl : String → Option (String × List Nat × String))
    (u : String) (rest : List String) :
    prepare_media dl (u :: rest) =
      if !(is_image_url (normCand u) || is_video_url (normCand u)) then
        prepare_media dl rest
      else
        match dl (normCand u) with
        | some got => some got
        | none => prepare_media dl rest := rfl

theorem prepare_media_skip (dl : String → Option (String × List Nat × String))
    (w : String) (rest : List String)
    (hw : (is_image_url (normCand w) || is_video_url (normCand w)) = false ∨
      dl (normCand w) = none) :
    prepare_media dl (w :: rest) = prepare_media dl rest := by
  rw [prepare_media_cons]
  cases hv : (is_image_url (normCand w) || is_video_url (normCand w)) with
  | false => rw [if_pos (show (!false) = true from rfl)]
  | true =>
    rw [if_neg (by simp)]
    rcases hw with hw | hw
    · rw [hv] at hw
      exact absurd hw (by decide)
    · rw [hw]

theorem prepare_media_append_skip (dl : String → Option (String × List Nat × String)) :
    ∀ (us tail : List String),
      (∀ w ∈ us, (is_image_url (normCand w) || is_video_url (normCand w)) = false ∨
        dl (normCand w) = none) →
      prepare_media dl (us ++ tail) = prepare_media dl tail := by
  intro us
  induction us with
  | nil => intro tail _; rfl
  | cons w rest ih =>
    intro tail hall
    rw [List.cons_append,
      prepare_media_skip dl w (rest ++ tail) (hall w (List.mem_cons_self _ _))]
    exact ih tail (fun x hx => hall x (List.mem_cons_of_mem _ hx))

/-- C8: `download_binary` returns `None` as soon as the accumulated chunk
bytes exceed the ceiling, whatever the remainder of the stream holds (no
full buffering); a successful download is within the ceiling and nonempty;
`prepare_media` returns `None` when every candidate is filtered out or
fails to download, and otherwise returns the first candidate's successful
download. -/
theorem C8_download_ceiling_and_fallback (r : HttpResponse) (url : String)
    (maxBytes : Nat) (pre suf : List (List Nat))
    (dl : String → Option (String × List Nat × String))
    (us vs : List String) (u name kind : String) (data : List Nat) :
    (r.chunks = pre ++ suf → maxBytes < (pre.map List.length).sum →
      download_binary r url maxBytes = none) ∧
    (download_binary r url maxBytes = some (name, data, kind) →
      data.length ≤ maxBytes ∧ data ≠ []) ∧
    ((∀ w ∈ us, (is_image_url (normCand w) || is_video_url (normCand w)) = false ∨
        dl (normCand w) = none) →
      prepare_media dl us = none) ∧
    ((∀ w ∈ us, (is_image_url (normCand w) || is_video_url (normCand w)) = false ∨
        dl (normCand w) = none) →
      (is_image_url (normCand u) || is_video_url (normCand u)) = true →
      dl (normCand u) = some (name, data, kind) →
      prepare_media dl (us ++ u :: vs) = some (name, data, kind)) := by
  refine ⟨?_, ?_, ?_, ?_⟩
  · intro hchunks hover
    unfold download_binary
    by_cases hst : 400 ≤ r.status
    · rw [if_pos hst]
    · rw [if_neg hst]
      have habort : downloadLoop maxBytes r.chunks 0 = none := by
        rw [hchunks]
        exact downloadLoop_abort maxBytes pre suf 0 (Nat.zero_le _) (by omega)
      cases hk : mediaKindExt (pyLower r.content_type.data) url with
      | none => rfl
      | some p =>
        obtain ⟨ext2, kind2⟩ := p
        dsimp only
        rw [habort]
  · intro hsucc
    unfold download_binary at hsucc
    by_cases hst : 400 ≤ r.status
    · rw [if_pos hst] at hsucc
      exact absurd hsucc (by simp)
    · rw [if_neg hst] at hsucc
      cases hk : mediaKindExt (pyLower r.content_type.data) url with
      | none =>
        rw [hk] at hsucc
        exact absurd hsucc (by simp)
      | some p =>
        obtain ⟨ext2, kind2⟩ := p
        rw [hk] at hsucc
        dsimp only at hsucc
        cases hl : downloadLoop maxBytes r.chunks 0 with
        | none =>
          rw [hl] at hsucc
          exact absurd hsucc (by simp)
        | some d =>
          rw [hl] at hsucc
          dsimp only at hsucc
          by_cases hd : d.isEmpty = true
          · rw [if_pos hd] at hsucc
            exact absurd hsucc (by simp)
          · rw [if_neg hd] at hsucc
            have hbound := downloadLoop_bound maxBytes r.chunks 0 d
              (Nat.zero_le _) hl
            have hdd : d = data := by
              have hx := congrArg
                (fun o : Option (String × List Nat × String) =>
                  o.map (fun x => x.2.1)) hsucc
              simpa using hx
            constructor
            · rw [← hdd]
              omega
            · rw [← hdd]
              intro hnil
              rw [hnil] at hd
              exact hd rfl
  · intro hall
    have hs := prepare_media_append_skip dl us [] hall
    rw [List.append_nil] at hs
    rw [hs]
    rfl
  · intro hall hu hdl
    rw [prepare_media_append_skip dl us (u :: vs) hall, prepare_media_cons,
      if_neg (by rw [hu]; simp), hdl]

/-- C8 witness: a stream whose first two chunks already exceed a 3-byte
ceiling is rejected whatever follows; a successful download is within the
ceiling and nonempty; an all-failing candidate list yields `None`; and the
first valid, successfully downloading candidate is returned. -/
theorem C8_witness :
    download_binary ⟨200, "image/png", [[1, 2], [3, 4], [5]]⟩ "http://x/a.png" 3 = none ∧
    (([1, 2, 3] : List Nat).length ≤ 10 ∧ ([1, 2, 3] : List Nat) ≠ []) ∧
    prepare_media (fun _ => none) ["ftp://nope", "http://a.png"] = none ∧
    prepare_media
      (fun v => if v = "http://ok.mp4" then some ("media.mp4", [7], "video") else none)
      (["nope"] ++ "http://ok.mp4" :: []) = some ("media.mp4", [7], "video") :=
  ⟨(C8_download_ceiling_and_fallback ⟨200, "image/png", [[1, 2], [3, 4], [5]]⟩
      "http://x/a.png" 3 [[1, 2], [3, 4]] [[5]] (fun _ => none) [] [] "" "" "" []).1
      rfl (by decide),
   (C8_download_ceiling_and_fallback ⟨200, "image/png", [[1, 2], [3]]⟩
      "http://x/a.png" 10 [] [] (fun _ => none) [] [] "" "media.png" "image" [1, 2, 3]).2.1
      (by decide),
   (C8_download_ceiling_and_fallback ⟨200, "", []⟩ "" 0 [] [] (fun _ => none)
      ["ftp://nope", "http://a.png"] [] "" "" "" []).2.2.1
      (fun w _ => Or.inr rfl),
   (C8_download_ceiling_and_fallback ⟨200, "", []⟩ "" 0 [] []
      (fun v => if v = "http://ok.mp4" then some ("media.mp4", [7], "video") else none)
      ["nope"] [] "http://ok.mp4" "media.mp4" "video" [7]).2.2.2
      (by intro w hw
          rw [List.mem_singleton] at hw
          rw [hw]
          exact Or.inl (by decide))
      (by decide) (by decide)⟩

end TotalNews
